import Mathlib

/-!
# duplicacy-util: backup operations

A shallow embedding of `backup-operations.go`: the line classifiers
(`backupLogger`, `copyLogger`), the phase orchestrators
(`performDuplicacyBackup`, `performDuplicacyPrune`, `performDuplicacyCheck`)
and the job driver (`performBackup`), followed by the properties proved
about them.

Go strings are embedded as Lean `String`s (sequences of Unicode characters;
byte sequences that are not valid UTF-8 are outside the embedding), Go maps as
association lists read with the zero-value default, slices as lists, a Go
`error` as its message with `none` for `nil`.  Effects (the log, the executor
invocations, the result tables, the clock) are explicit fields of a state
record that is passed through every operation.  A Go run-time panic is the
`none` of the outer `Option`.
-/

namespace DuplicacyUtil

/-! ## Regular expressions (the fragment of Go `regexp` the source uses) -/

/-- Single-character expressions of the patterns: a literal character, `.`
and `\S`. -/
inductive Cls where
  | char (c : Char)
  | dot
  | notSpace
  deriving DecidableEq, Repr

/-- Go `\s`, the class `[\t\n\f\r ]`. -/
def isSpace (c : Char) : Bool :=
  c == '\t' || c == '\n' || c == Char.ofNat 12 || c == '\r' || c == ' '

/-- Whether a character belongs to a class; `.` excludes the newline (no `s`
flag is set in the source). -/
def Cls.test : Cls → Char → Bool
  | .char c, x => x == c
  | .dot, x => x != '\n'
  | .notSpace, x => !isSpace x

/-- Regular expressions: concatenation, greedy `*` and `+` over a
single-character expression, and numbered capture groups. -/
inductive Re where
  | eps
  | one (c : Cls)
  | star (c : Cls)
  | plus (c : Cls)
  | group (i : Nat) (r : Re)
  | cat (a b : Re)
  deriving Repr

/-- The literal string `s`. -/
def Re.str : List Char → Re
  | [] => .eps
  | c :: cs => .cat (.one (.char c)) (Re.str cs)

/-- Concatenation of a list of expressions. -/
def Re.seq : List Re → Re
  | [] => .eps
  | r :: rs => .cat r (Re.seq rs)

/-- Number of capture groups (the largest group index). -/
def Re.numGroups : Re → Nat
  | .eps => 0
  | .one _ => 0
  | .star _ => 0
  | .plus _ => 0
  | .group i r => max i r.numGroups
  | .cat a b => max a.numGroups b.numGroups

/-- Capture slots: slot `0` is the whole match, slot `i` group `i`. -/
abbrev Caps := List (List Char)

/-- Greedy repetition of a single-character test: consume as many characters
as possible, then give back one at a time until the continuation accepts. -/
def starRun {α : Type} (p : Char → Bool) (k : List Char → Option α) : List Char → Option α
  | [] => k []
  | x :: xs =>
    if p x then
      match starRun p k xs with
      | some r => some r
      | none => k (x :: xs)
    else k (x :: xs)

/-- Backtracking matcher in continuation-passing style.  The order in which
alternatives are tried is the leftmost-first (Perl) preference order that Go
`regexp` implements: a greedy repetition prefers the longer match. -/
def Re.run {α : Type} : Re → List Char → Caps → (List Char → Caps → Option α) → Option α
  | .eps, s, cs, k => k s cs
  | .one c, s, cs, k =>
    match s with
    | [] => none
    | x :: xs => if c.test x then k xs cs else none
  | .star c, s, cs, k => starRun c.test (fun t => k t cs) s
  | .plus c, s, cs, k =>
    match s with
    | [] => none
    | x :: xs => if c.test x then starRun c.test (fun t => k t cs) xs else none
  | .group i r, s, cs, k =>
    r.run s cs (fun t cs1 => k t (cs1.set i (s.take (s.length - t.length))))
  | .cat a b, s, cs, k => a.run s cs (fun t cs1 => b.run t cs1 k)

/-- One match attempt anchored at the start of `s`: on success the capture
slots, slot `0` holding the matched text. -/
def Re.matchAt (re : Re) (s : List Char) : Option Caps :=
  re.run s (List.replicate (re.numGroups + 1) [])
    (fun t cs => some (cs.set 0 (s.take (s.length - t.length))))

/-- Unanchored search: the match at the leftmost start position. -/
def Re.search (re : Re) : List Char → Option Caps
  | [] => re.matchAt []
  | x :: xs =>
    match re.matchAt (x :: xs) with
    | some cs => some cs
    | none => Re.search re xs

/-- Go `(*Regexp).FindStringSubmatch`: the whole match followed by the text of
each group, or the nil slice (the empty list) when there is no match. -/
def FindStringSubmatch (re : Re) (s : String) : List String :=
  match re.search s.data with
  | some cs => cs.map String.mk
  | none => []

/-- Go `strings.HasPrefix`. -/
def HasPrefix (s p : String) : Bool := p.data.isPrefixOf s.data

/-- Go `strings.HasSuffix`. -/
def HasSuffix (s p : String) : Bool := p.data.isSuffixOf s.data

/-- The pattern of the "Files:" branch,
`.*: (\S+) total, (\S+) bytes; (\S+) new, (\S+) bytes`. -/
def filesRe : Re :=
  Re.seq [.star .dot, Re.str ": ".data, .group 1 (.plus .notSpace), Re.str " total, ".data,
    .group 2 (.plus .notSpace), Re.str " bytes; ".data, .group 3 (.plus .notSpace),
    Re.str " new, ".data, .group 4 (.plus .notSpace), Re.str " bytes".data]

/-- The pattern of the "All chunks:" branch,
`.*: (\S+) total, (\S+) bytes; (\S+) new, (\S+) bytes, (\S+) bytes uploaded`. -/
def chunksRe : Re :=
  Re.seq [.star .dot, Re.str ": ".data, .group 1 (.plus .notSpace), Re.str " total, ".data,
    .group 2 (.plus .notSpace), Re.str " bytes; ".data, .group 3 (.plus .notSpace),
    Re.str " new, ".data, .group 4 (.plus .notSpace), Re.str " bytes, ".data,
    .group 5 (.plus .notSpace), Re.str " bytes uploaded".data]

/-- The pattern of the copy classifier,
`Copy complete, (\S+) total chunks, (\S+) chunks copied, (\S+) skipped`. -/
def copyRe : Re :=
  Re.seq [Re.str "Copy complete, ".data, .group 1 (.plus .notSpace),
    Re.str " total chunks, ".data, .group 2 (.plus .notSpace),
    Re.str " chunks copied, ".data, .group 3 (.plus .notSpace), Re.str " skipped".data]

/-! ## Data model -/

/-- Modelled from the spec: the declaration of the struct `backupRevision` is
outside the source files; the fields are the ones `performDuplicacyBackup`
assigns.  The default values are the Go zero values. -/
structure backupRevision where
  storage : String := ""
  filesTotalCount : String := ""
  filesTotalSize : String := ""
  filesNewCount : String := ""
  filesNewSize : String := ""
  chunkTotalCount : String := ""
  chunkTotalSize : String := ""
  chunkNewCount : String := ""
  chunkNewSize : String := ""
  chunkNewUploaded : String := ""
  duration : String := ""
  deriving DecidableEq, Repr

/-- Modelled from the spec: the declaration of the struct `copyRevision` is
outside the source files; the fields are the ones `performDuplicacyBackup`
assigns. -/
structure copyRevision where
  storageFrom : String := ""
  storageTo : String := ""
  chunkTotalCount : String := ""
  chunkCopyCount : String := ""
  chunkSkipCount : String := ""
  duration : String := ""
  deriving DecidableEq, Repr

/-- A Go `map[string]string`, one per configured target. -/
abbrev Target := List (String × String)

/-- Go map indexing `m[key]`: the value, or the zero value `""` for an absent
key. -/
def Target.get (m : Target) (key : String) : String := (m.lookup key).getD ""

/-- Modelled from the spec: `logMessage` and `logError` are defined outside
the source files, so a call of either is recorded as an event of its own,
with whether it was handed the run logger (`true`) or `nil` (`false`);
`println` is `logger.Println` on the run log. -/
inductive LogEvent where
  | println (s : String)
  | logMessage (logger : Bool) (s : String)
  | logError (logger : Bool) (s : String)
  deriving DecidableEq, Repr

/-- One invocation of the executor: executable, argument vector, working
directory. -/
structure Call where
  path : String
  args : List String
  dir : String
  deriving DecidableEq, Repr

/-- What one invocation of the external command does: the lines it emits and
the error it ends with (`none` is Go `nil`). -/
structure ExecResult where
  lines : List String
  err : Option String
  deriving DecidableEq, Repr

/-- The globals `configFile`, `duplicacyPath`, `debugFlag`, `cmdConfig`,
`globalLogDir` and the flags `cmdBackup`, `cmdPrune`, `cmdCheck`. -/
structure Config where
  backupInfo : List Target := []
  copyInfo : List Target := []
  pruneInfo : List Target := []
  checkInfo : List Target := []
  repoDir : String := ""
  duplicacyPath : String := ""
  debugFlag : Bool := false
  cmdConfig : String := ""
  globalLogDir : String := ""
  cmdBackup : Bool := false
  cmdPrune : Bool := false
  cmdCheck : Bool := false

/-- Modelled from the spec: everything the source calls but does not define.
`Executor n call` is the behaviour of the external command at the invocation
number `n` of the run; `now n` is the `n`-th reading of `time.Now()`;
`getTimeDiffString`, `formatTime` (`Time.Format`), `rotateLogFiles` and
`osCreate` (`os.Create` of the joined path) stand for the functions of the
same names. -/
structure Env where
  Executor : Nat → Call → ExecResult
  now : Nat → Nat
  getTimeDiffString : Nat → Nat → String
  formatTime : Nat → String
  rotateLogFiles : Option String
  osCreate : String → String → Option String

/-- The mutable globals and the observable effects: the executor invocations
so far, the log, `backupTable`, `copyTable`, and the number of clock readings
taken. -/
structure State where
  calls : List Call := []
  log : List LogEvent := []
  backupTable : List backupRevision := []
  copyTable : List copyRevision := []
  clock : Nat := 0
  deriving DecidableEq, Repr

/-- Go `logger.Println(s)`. -/
def State.println (st : State) (s : String) : State :=
  { st with log := st.log ++ [.println s] }

/-- Go `logMessage(logger, s)`. -/
def State.logMessage (st : State) (logger : Bool) (s : String) : State :=
  { st with log := st.log ++ [.logMessage logger s] }

/-- Go `logError(logger, s)`. -/
def State.logError (st : State) (logger : Bool) (s : String) : State :=
  { st with log := st.log ++ [.logError logger s] }

/-- State after one reading of `time.Now()`; the value read is
`env.now st.clock`. -/
def State.tick (st : State) : State := { st with clock := st.clock + 1 }

/-- The separator line written before every target. -/
def separator : String :=
  "######################################################################"

/-- A line callback: the log events it produces and the new value of the
variables it captures, or `none` for a panic. -/
abbrev Callback (α : Type) := String → α → Option (List LogEvent × α)

/-- The callback applied to each line in turn. -/
def feed {α : Type} (cb : Callback α) : List String → State → α → Option (State × α)
  | [], st, a => some (st, a)
  | l :: ls, st, a =>
    match cb l a with
    | none => none
    | some (out, a1) => feed cb ls { st with log := st.log ++ out } a1

/-- Modelled from the spec: `Executor` is defined outside the source files:
it "runs an external command with arguments and working directory, streaming
each output line to a supplied per-line callback; captures exit status".  The
invocation is recorded, every emitted line is handed to the callback, and the
command's error is returned. -/
def Executor {α : Type} (env : Env) (path : String) (args : List String) (dir : String)
    (cb : Callback α) (st : State) (a : α) : Option (State × α × Option String) :=
  let call : Call := { path := path, args := args, dir := dir }
  let r := env.Executor st.calls.length call
  match feed cb r.lines { st with calls := st.calls ++ [call] } a with
  | none => none
  | some (st1, a1) => some (st1, a1, r.err)

/-- Go `fmt.Sprint` of a `[]string` operand: `[a b c]`. -/
def sprintSlice (xs : List String) : String := "[" ++ " ".intercalate xs ++ "]"

/-! ## The line classifiers -/

/-- The closure `backupLogger` of `performDuplicacyBackup`, acting on the
captured variable `backupEntry`.  `elements[i]` is a checked access. -/
def backupLogger : Callback backupRevision := fun line backupEntry =>
  if HasPrefix line "Files:" then
    let out := [LogEvent.println line, LogEvent.logMessage true ("  " ++ line)]
    let elements := FindStringSubmatch filesRe line
    if elements.length ≥ 4 then
      match elements[1]?, elements[2]?, elements[3]?, elements[4]? with
      | some e1, some e2, some e3, some e4 =>
        some (out, { backupEntry with
          filesTotalCount := e1, filesTotalSize := e2, filesNewCount := e3, filesNewSize := e4 })
      | _, _, _, _ => none
    else some (out, backupEntry)
  else if HasPrefix line "All chunks:" then
    let out := [LogEvent.println line, LogEvent.logMessage true ("  " ++ line)]
    let elements := FindStringSubmatch chunksRe line
    if elements.length ≥ 6 then
      match elements[1]?, elements[2]?, elements[3]?, elements[4]?, elements[5]? with
      | some e1, some e2, some e3, some e4, some e5 =>
        some (out, { backupEntry with
          chunkTotalCount := e1, chunkTotalSize := e2, chunkNewCount := e3, chunkNewSize := e4,
          chunkNewUploaded := e5 })
      | _, _, _, _, _ => none
    else some (out, backupEntry)
  else if HasSuffix line "Authorization failure" then
    some ([LogEvent.logMessage true "  Error: Duplicacy appears to be prompting for a password",
      LogEvent.println line, LogEvent.logMessage true ("  " ++ line)], backupEntry)
  else some ([LogEvent.println line], backupEntry)

/-- The closure `copyLogger` of `performDuplicacyBackup`, acting on the
captured variable `copyEntry`. -/
def copyLogger : Callback copyRevision := fun line copyEntry =>
  if HasPrefix line "Copy complete, " then
    let out := [LogEvent.println line, LogEvent.logMessage true ("  " ++ line)]
    let elements := FindStringSubmatch copyRe line
    if elements.length ≥ 4 then
      match elements[1]?, elements[2]?, elements[3]? with
      | some e1, some e2, some e3 =>
        some (out, { copyEntry with
          chunkTotalCount := e1, chunkCopyCount := e2, chunkSkipCount := e3 })
      | _, _, _ => none
    else some (out, copyEntry)
  else some ([LogEvent.println line], copyEntry)

/-- The closure `anon` of the prune and check phases: `logger.Println(s)`. -/
def anon : Callback Unit := fun s u => some ([LogEvent.println s], u)

/-! ## The phase orchestrators -/

/-- The argument vector `cmdArgs` and the text `vssFlags` that the backup
loop builds for one target. -/
def backupCmd (backupInfo : Target) : List String × String :=
  let cmdArgs := ["backup", "-storage", Target.get backupInfo "name", "-threads",
    Target.get backupInfo "threads", "-stats"]
  let vssFlags := ""
  if Target.get backupInfo "vss" = "true" then
    let cmdArgs := cmdArgs ++ ["-vss"]
    let vssFlags := " -vss"
    if Target.get backupInfo "vssTimeout" ≠ "" then
      (cmdArgs ++ ["-vss-timeout", Target.get backupInfo "vssTimeout"],
        vssFlags ++ " -vss-timeout " ++ Target.get backupInfo "vssTimeout")
    else (cmdArgs, vssFlags)
  else (cmdArgs, vssFlags)

/-- The loop over `configFile.backupInfo` of `performDuplicacyBackup`.  The
variable `backupEntry` is declared before the loop and captured by
`backupLogger`, so it is threaded through the iterations.  The result is the
state, the final `backupEntry` and the error returned (if any). -/
def backupLoop (cfg : Config) (env : Env) :
    List Target → State → backupRevision → Option (State × backupRevision × Option String)
  | [], st, backupEntry => some (st, backupEntry, none)
  | backupInfo :: rest, st, backupEntry =>
    let backupStartTime := env.now st.clock
    let st := st.tick
    let st := st.println separator
    let cmdArgs := (backupCmd backupInfo).1
    let vssFlags := (backupCmd backupInfo).2
    let st := st.logMessage true ("Backing up to storage " ++ Target.get backupInfo "name" ++
      vssFlags ++ " with " ++ Target.get backupInfo "threads" ++ " threads")
    let st := if cfg.debugFlag then
        st.logMessage true ("Executing: " ++ cfg.duplicacyPath ++ sprintSlice cmdArgs)
      else st
    match Executor env cfg.duplicacyPath cmdArgs cfg.repoDir backupLogger st backupEntry with
    | none => none
    | some (st, backupEntry, some err) =>
      some (st.logError true ("Error executing command: " ++ err), backupEntry, some err)
    | some (st, backupEntry, none) =>
      let backupDuration := env.getTimeDiffString backupStartTime (env.now st.clock)
      let st := st.tick
      let st := st.logMessage true ("  Duration: " ++ backupDuration)
      let backupEntry := { backupEntry with
        storage := Target.get backupInfo "name", duration := backupDuration }
      backupLoop cfg env rest { st with backupTable := st.backupTable ++ [backupEntry] }
        backupEntry

/-- The argument vector of one copy target. -/
def copyCmd (copyInfo : Target) : List String :=
  ["copy", "-threads", Target.get copyInfo "threads", "-from", Target.get copyInfo "from",
    "-to", Target.get copyInfo "to"]

/-- The loop over `configFile.copyInfo` of `performDuplicacyBackup`, with the
captured variable `copyEntry` threaded through. -/
def copyLoop (cfg : Config) (env : Env) :
    List Target → State → copyRevision → Option (State × copyRevision × Option String)
  | [], st, copyEntry => some (st, copyEntry, none)
  | copyInfo :: rest, st, copyEntry =>
    let copyStartTime := env.now st.clock
    let st := st.tick
    let st := st.println separator
    let cmdArgs := copyCmd copyInfo
    let st := st.logMessage true ("Copying from storage " ++ Target.get copyInfo "from" ++
      " to storage " ++ Target.get copyInfo "to" ++ " with " ++
      Target.get copyInfo "threads" ++ " threads")
    let st := if cfg.debugFlag then
        st.logMessage true ("Executing: " ++ cfg.duplicacyPath ++ sprintSlice cmdArgs)
      else st
    match Executor env cfg.duplicacyPath cmdArgs cfg.repoDir copyLogger st copyEntry with
    | none => none
    | some (st, copyEntry, some err) =>
      some (st.logError true ("Error executing command: " ++ err), copyEntry, some err)
    | some (st, copyEntry, none) =>
      let copyDuration := env.getTimeDiffString copyStartTime (env.now st.clock)
      let st := st.tick
      let st := st.logMessage true
        ("  Duration: " ++ env.getTimeDiffString copyStartTime (env.now st.clock))
      let st := st.tick
      let copyEntry := { copyEntry with
        storageFrom := Target.get copyInfo "from", storageTo := Target.get copyInfo "to",
        duration := copyDuration }
      copyLoop cfg env rest { st with copyTable := st.copyTable ++ [copyEntry] } copyEntry

/-- Go `performDuplicacyBackup`: the state afterwards and the error returned
(`none` is `nil`). -/
def performDuplicacyBackup (cfg : Config) (env : Env) (st : State) :
    Option (State × Option String) :=
  match backupLoop cfg env cfg.backupInfo st {} with
  | none => none
  | some (st, _, some err) => some (st, some err)
  | some (st, _, none) =>
    if cfg.copyInfo.length ≠ 0 then
      match copyLoop cfg env cfg.copyInfo st {} with
      | none => none
      | some (st, _, err) => some (st, err)
    else some (st, none)

/-- Go `strings.Split(s, sep)` for a separator of one character: the pieces
between consecutive occurrences of the separator (one more piece than there
are separators). -/
def splitChars (sep : Char) : List Char → List (List Char)
  | [] => [[]]
  | c :: cs =>
    if c = sep then [] :: splitChars sep cs
    else
      match splitChars sep cs with
      | [] => [[c]]
      | w :: ws => (c :: w) :: ws

/-- Go `strings.Split(s, " ")`. -/
def Split (s : String) : List String := (splitChars ' ' s.data).map String.mk

/-- The argument vector of one prune target. -/
def pruneCmd (pruneInfo : Target) : List String :=
  ["prune", "-all", "-storage", Target.get pruneInfo "storage"] ++
    Split (Target.get pruneInfo "keep")

/-- The loop of `performDuplicacyPrune`. -/
def pruneLoop (cfg : Config) (env : Env) : List Target → State → Option (State × Option String)
  | [], st => some (st, none)
  | pruneInfo :: rest, st =>
    let st := st.println separator
    let cmdArgs := pruneCmd pruneInfo
    let st := st.logMessage true ("Pruning storage " ++ Target.get pruneInfo "storage")
    let st := if cfg.debugFlag then
        st.logMessage true ("Executing: " ++ cfg.duplicacyPath ++ sprintSlice cmdArgs)
      else st
    match Executor env cfg.duplicacyPath cmdArgs cfg.repoDir anon st () with
    | none => none
    | some (st, _, some err) =>
      some (st.logError true ("Error executing command: " ++ err), some err)
    | some (st, _, none) => pruneLoop cfg env rest st

/-- Go `performDuplicacyPrune`. -/
def performDuplicacyPrune (cfg : Config) (env : Env) (st : State) :
    Option (State × Option String) :=
  pruneLoop cfg env cfg.pruneInfo st

/-- The argument vector of one check target. -/
def checkCmd (checkInfo : Target) : List String :=
  let cmdArgs := ["check", "-storage", Target.get checkInfo "storage"]
  if Target.get checkInfo "all" = "true" then cmdArgs ++ ["-all"] else cmdArgs

/-- The loop of `performDuplicacyCheck`. -/
def checkLoop (cfg : Config) (env : Env) : List Target → State → Option (State × Option String)
  | [], st => some (st, none)
  | checkInfo :: rest, st =>
    let st := st.println separator
    let cmdArgs := checkCmd checkInfo
    let st := st.logMessage true ("Checking storage " ++ Target.get checkInfo "storage")
    let st := if cfg.debugFlag then
        st.logMessage true ("Executing: " ++ cfg.duplicacyPath ++ sprintSlice cmdArgs)
      else st
    match Executor env cfg.duplicacyPath cmdArgs cfg.repoDir anon st () with
    | none => none
    | some (st, _, some err) =>
      some (st.logError true ("Error executing command: " ++ err), some err)
    | some (st, _, none) => checkLoop cfg env rest st

/-- Go `performDuplicacyCheck`. -/
def performDuplicacyCheck (cfg : Config) (env : Env) (st : State) :
    Option (State × Option String) :=
  checkLoop cfg env cfg.checkInfo st

/-! ## The job driver -/

/-- The state in which the first requested phase starts: after the message
"Rotating log files", the reading of `startTime` and the message "Beginning
backup on ...". -/
def jobStart (env : Env) (st : State) : State :=
  let st := st.logMessage false "Rotating log files"
  let st := st.tick
  let st := st.logMessage true ("Beginning backup on " ++ env.formatTime (env.now st.clock))
  st.tick

/-- Go `performBackup`. -/
def performBackup (cfg : Config) (env : Env) (st : State) : Option (State × Option String) :=
  let st0 := st.logMessage false "Rotating log files"
  match env.rotateLogFiles with
  | some err => some (st0, some err)
  | none =>
    match env.osCreate cfg.globalLogDir (cfg.cmdConfig ++ ".log") with
    | some err => some (st0.logError false ("Error: " ++ err), some err)
    | none =>
      let startTime := env.now st0.clock
      let st1 := jobStart env st
      match (if cfg.cmdBackup then performDuplicacyBackup cfg env st1 else some (st1, none)) with
      | none => none
      | some (st2, some err) => some (st2, some err)
      | some (st2, none) =>
        match (if cfg.cmdPrune then performDuplicacyPrune cfg env st2 else some (st2, none)) with
        | none => none
        | some (st3, some err) => some (st3, some err)
        | some (st3, none) =>
          match (if cfg.cmdCheck then performDuplicacyCheck cfg env st3
            else some (st3, none)) with
          | none => none
          | some (st4, some err) => some (st4, some err)
          | some (st4, none) =>
            let endTime := env.now st4.clock
            let st5 := st4.tick
            let st5 := st5.println separator
            let st5 := st5.logMessage true
              ("Operations completed in " ++ env.getTimeDiffString startTime endTime)
            some (st5, none)

/-! ## Definitions used to state and prove the properties -/

/-- Least number of occurrences of the character `c` in any text the
expression matches: the literal occurrences of `c` in the pattern. -/
def Re.minCount (c : Char) : Re → Nat
  | .eps => 0
  | .one (.char d) => if d = c then 1 else 0
  | .one _ => 0
  | .star _ => 0
  | .plus _ => 0
  | .group _ r => r.minCount c
  | .cat a b => a.minCount c + b.minCount c

/-- A string without a character of the class `\s`. -/
def noSpace (s : String) : Prop := ∀ c ∈ s.data, isSpace c = false

instance (s : String) : Decidable (noSpace s) := by
  unfold noSpace
  infer_instance

/-- A token: a non-empty string that contains none of the space, `\t`, `\n`,
`\f` and `\r`. -/
def isToken (s : String) : Prop :=
  s ≠ "" ∧ ∀ c ∈ s.data, c ≠ ' ' ∧ c ≠ '\t' ∧ c ≠ '\n' ∧ c ≠ Char.ofNat 12 ∧ c ≠ '\r'

instance (s : String) : Decidable (isToken s) := by
  unfold isToken
  infer_instance

/-- What follows the leading `.*` in the pattern of the "Files:" branch. -/
def filesTail : Re :=
  Re.seq [Re.str ": ".data, .group 1 (.plus .notSpace), Re.str " total, ".data,
    .group 2 (.plus .notSpace), Re.str " bytes; ".data, .group 3 (.plus .notSpace),
    Re.str " new, ".data, .group 4 (.plus .notSpace), Re.str " bytes".data]

/-- What follows the leading `.*` in the pattern of the "All chunks:" branch. -/
def chunksTail : Re :=
  Re.seq [Re.str ": ".data, .group 1 (.plus .notSpace), Re.str " total, ".data,
    .group 2 (.plus .notSpace), Re.str " bytes; ".data, .group 3 (.plus .notSpace),
    Re.str " new, ".data, .group 4 (.plus .notSpace), Re.str " bytes, ".data,
    .group 5 (.plus .notSpace), Re.str " bytes uploaded".data]

/-- The executor invocation the phases make for an argument vector. -/
def mkCall (cfg : Config) (args : List String) : Call :=
  { path := cfg.duplicacyPath, args := args, dir := cfg.repoDir }

/-- Configuration of the two-target scenario: the targets `b2` and `s3`. -/
def twoTargets : Config :=
  { backupInfo := [[("name", "b2"), ("threads", "5"), ("vss", "false")],
      [("name", "s3"), ("threads", "1")]] }

/-- An environment in which the first invocation succeeds without output and
every later one fails with `exit status 1`. -/
def secondFails : Env :=
  { Executor := fun n _ =>
      if n = 0 then { lines := [], err := none } else { lines := [], err := some "exit status 1" }
    now := fun n => n
    getTimeDiffString := fun a b => toString (b - a)
    formatTime := fun t => toString t
    rotateLogFiles := none
    osCreate := fun _ _ => none }

/-- The argument vector of a backup target in the words of the specification:
`backup -storage <name> -threads <threads> -stats`, then `-vss` exactly when
the value of `vss` is the string `true`, then `-vss-timeout <t>` exactly when
moreover the key `vssTimeout` is present with a non-empty value `t`. -/
def backupArgsSpec (c : Target) : List String :=
  ["backup", "-storage", Target.get c "name", "-threads", Target.get c "threads", "-stats"] ++
    (if Target.get c "vss" = "true" then ["-vss"] else []) ++
    (match c.lookup "vssTimeout" with
      | some t => if Target.get c "vss" = "true" ∧ t ≠ "" then ["-vss-timeout", t] else []
      | none => [])

/-- A line that matches none of the patterns of the backup classifier. -/
def unmatched (line : String) : Prop :=
  HasPrefix line "Files:" = false ∧ HasPrefix line "All chunks:" = false ∧
    HasSuffix line "Authorization failure" = false

instance (line : String) : Decidable (unmatched line) := by
  unfold unmatched
  infer_instance

/-- The configuration of `TestRunDuplicacyBackup`: one backup target, no copy
target. -/
def testConfig : Config :=
  { backupInfo := [[("name", "b2"), ("threads", "5"), ("vss", "false")]], copyInfo := [] }

/-- The helper process of the test: it prints one line and exits with
status 0. -/
def helperProcess : Env :=
  { Executor := fun _ _ =>
      { lines := ["Processing backup file: \"taltos.log\""], err := none }
    now := fun n => 7 * n
    getTimeDiffString := fun a b => toString (b - a)
    formatTime := fun t => toString t
    rotateLogFiles := none
    osCreate := fun _ _ => none }

/-- An environment in which the first invocation prints a "Files:" and an
"All chunks:" line, every later one prints nothing, and all succeed. -/
def firstPrintsStats : Env :=
  { Executor := fun n _ =>
      if n = 0 then
        { lines := ["Files: 1 total, 2 bytes; 3 new, 4 bytes",
            "All chunks: 5 total, 6 bytes; 7 new, 8 bytes, 9 bytes uploaded"],
          err := none }
      else { lines := [], err := none }
    now := fun n => n
    getTimeDiffString := fun a b => toString (b - a)
    formatTime := fun t => toString t
    rotateLogFiles := none
    osCreate := fun _ _ => none }

/-- An environment in which every invocation succeeds without output. -/
def allSucceed : Env :=
  { Executor := fun _ _ => { lines := [], err := none }
    now := fun n => n
    getTimeDiffString := fun a b => toString (b - a)
    formatTime := fun t => toString t
    rotateLogFiles := none
    osCreate := fun _ _ => none }

/-- A job that requests the three phases, with two backup targets, one prune
target and one check target. -/
def fullJob : Config :=
  { backupInfo := [[("name", "b2"), ("threads", "5"), ("vss", "false")],
      [("name", "s3"), ("threads", "1")]]
    pruneInfo := [[("storage", "b2"), ("keep", "-keep 0:365 -keep 7:30")]]
    checkInfo := [[("storage", "b2"), ("all", "true")]]
    cmdBackup := true
    cmdPrune := true
    cmdCheck := true }

/-- A prune target whose `keep` value has two consecutive spaces, and one
without a `keep` value. -/
def pruneDoubleSpace : Config :=
  { pruneInfo := [[("storage", "b2"), ("keep", "-keep 0:365  -keep 7:30")],
      [("storage", "s3")]] }

/-- A backup target that lacks the keys `name` and `threads`. -/
def missingKeys : Config :=
  { backupInfo := [[("vss", "false")]] }

/-! ## Properties of the matcher -/

theorem run_cat {α : Type} (a b : Re) (s : List Char) (cs : Caps)
    (k : List Char → Caps → Option α) :
    (Re.cat a b).run s cs k = a.run s cs (fun t cs1 => b.run t cs1 k) := rfl

theorem run_eps {α : Type} (s : List Char) (cs : Caps) (k : List Char → Caps → Option α) :
    Re.eps.run s cs k = k s cs := rfl

theorem starRun_suffix {α : Type} (p : Char → Bool) (k : List Char → Option α) (s : List Char)
    (x : α) (h : starRun p k s = some x) : ∃ t, t <:+ s ∧ k t = some x := by
  induction s with
  | nil => exact ⟨[], List.suffix_refl _, h⟩
  | cons a s ih =>
    unfold starRun at h
    split at h
    · split at h
      · rename_i r hr
        obtain ⟨t, ht, hk⟩ := ih (by rw [hr, h])
        exact ⟨t, ht.trans (List.suffix_cons a s), hk⟩
      · exact ⟨a :: s, List.suffix_refl _, h⟩
    · exact ⟨a :: s, List.suffix_refl _, h⟩

/-- Every result of the matcher is a result of its continuation, called on a
suffix of the input from which at least the literal occurrences of `c` have
been consumed, with as many capture slots as before. -/
theorem run_some {α : Type} (c : Char) (r : Re) : ∀ (s : List Char) (cs : Caps)
    (k : List Char → Caps → Option α) (x : α), r.run s cs k = some x →
    ∃ t cs1, k t cs1 = some x ∧ cs1.length = cs.length ∧
      r.minCount c + t.count c ≤ s.count c := by
  induction r with
  | eps => intro s cs k x h; exact ⟨s, cs, h, rfl, by simp [Re.minCount]⟩
  | one cl =>
    intro s cs k x h
    cases s with
    | nil => simp [Re.run] at h
    | cons a s =>
      simp only [Re.run] at h
      split at h
      · rename_i ht
        refine ⟨s, cs, h, rfl, ?_⟩
        cases cl with
        | char d =>
          simp only [Cls.test, beq_iff_eq] at ht
          subst ht
          by_cases hd : a = c
          · subst hd; simp [Re.minCount]; omega
          · simp [Re.minCount, hd, List.count_cons]
        | dot => simp [Re.minCount, List.count_cons]
        | notSpace => simp [Re.minCount, List.count_cons]
      · simp at h
  | star cl =>
    intro s cs k x h
    simp only [Re.run] at h
    obtain ⟨t, ht, hk⟩ := starRun_suffix _ _ _ _ h
    exact ⟨t, cs, hk, rfl, by simpa [Re.minCount] using ht.sublist.count_le c⟩
  | plus cl =>
    intro s cs k x h
    cases s with
    | nil => simp [Re.run] at h
    | cons a s =>
      simp only [Re.run] at h
      split at h
      · obtain ⟨t, ht, hk⟩ := starRun_suffix _ _ _ _ h
        refine ⟨t, cs, hk, rfl, ?_⟩
        have h1 := ht.sublist.count_le c
        have h2 : s.count c ≤ (a :: s).count c := by simp [List.count_cons]
        simp only [Re.minCount]; omega
      · simp at h
  | group i r ih =>
    intro s cs k x h
    simp only [Re.run] at h
    obtain ⟨t, cs1, hk, hl, hc⟩ := ih s cs _ x h
    exact ⟨t, _, hk, by simp [hl], by simpa [Re.minCount] using hc⟩
  | cat a b iha ihb =>
    intro s cs k x h
    rw [run_cat] at h
    obtain ⟨t1, cs1, hk1, hl1, hc1⟩ := iha s cs _ x h
    obtain ⟨t2, cs2, hk2, hl2, hc2⟩ := ihb t1 cs1 k x hk1
    exact ⟨t2, cs2, hk2, by omega, by simp only [Re.minCount]; omega⟩

theorem matchAt_length (re : Re) (s : List Char) (cs : Caps) (h : re.matchAt s = some cs) :
    cs.length = re.numGroups + 1 := by
  unfold Re.matchAt at h
  obtain ⟨t, cs1, hk, hl, _⟩ := run_some ' ' re s _ _ cs h
  simp only [Option.some.injEq] at hk
  subst hk
  simpa using hl

theorem search_length (re : Re) (s : List Char) (cs : Caps) (h : re.search s = some cs) :
    cs.length = re.numGroups + 1 := by
  induction s with
  | nil => exact matchAt_length re [] cs h
  | cons a s ih =>
    unfold Re.search at h
    split at h
    · rename_i cs1 h1
      simp only [Option.some.injEq] at h
      subst h
      exact matchAt_length re _ _ h1
    · exact ih h

/-- The result of `FindStringSubmatch` is the nil slice or has one element for
the whole match and one for every group. -/
theorem FindStringSubmatch_length (re : Re) (s : String) :
    FindStringSubmatch re s = [] ∨ (FindStringSubmatch re s).length = re.numGroups + 1 := by
  unfold FindStringSubmatch
  split
  · rename_i cs h
    right
    simpa using search_length re _ cs h
  · left; rfl



theorem run_str_append {α : Type} (l s : List Char) (cs : Caps)
    (k : List Char → Caps → Option α) : (Re.str l).run (l ++ s) cs k = k s cs := by
  induction l with
  | nil => rfl
  | cons a l ih => simp [Re.str, run_cat, Re.run, Cls.test, ih]

theorem starRun_longest {α : Type} (p : Char → Bool) (k : List Char → Option α)
    (X t : List Char) (v : α) (hX : ∀ x ∈ X, p x = true)
    (hk : k t = some v) (ht : ∀ y ys, t = y :: ys → p y = false) :
    starRun p k (X ++ t) = some v := by
  induction X with
  | nil =>
    cases t with
    | nil => simpa [starRun] using hk
    | cons y ys => simp [starRun, ht y ys rfl, hk]
  | cons a X ih =>
    have h1 := ih (fun x hx => hX x (List.mem_cons_of_mem _ hx))
    simp [starRun, hX a (List.mem_cons_self _ _), h1]

/-- A capturing `(c+)` in front of a text that starts with a maximal run `X`
of characters of the class takes the whole run, if the rest of the pattern
accepts what follows. -/
theorem run_group_plus {α : Type} (i : Nat) (c : Cls) (X t : List Char) (cs : Caps)
    (k : List Char → Caps → Option α) (v : α) (hne : X ≠ [])
    (hX : ∀ x ∈ X, c.test x = true) (ht : ∀ y ys, t = y :: ys → c.test y = false)
    (hk : k t (cs.set i X) = some v) :
    (Re.group i (.plus c)).run (X ++ t) cs k = some v := by
  cases X with
  | nil => exact absurd rfl hne
  | cons a X =>
    have h1 : ((a :: X ++ t).take ((a :: X ++ t).length - t.length)) = a :: X := by
      have : (a :: X ++ t).length - t.length = (a :: X).length := by simp; omega
      rw [this]; simp
    simp only [Re.run, List.cons_append, hX a (List.mem_cons_self _ _), if_true]
    apply starRun_longest _ _ X t v (fun x hx => hX x (List.mem_cons_of_mem _ hx)) _ ht
    simp only [List.cons_append] at h1
    rw [h1]; exact hk

/-- A leading `.*`-like repetition stops at the latest point from which the
rest of the pattern matches. -/
theorem starRun_first {α : Type} (p : Char → Bool) (k : List Char → Option α)
    (pre suf : List Char) (v : α) (hpre : ∀ x ∈ pre, p x = true)
    (hk : k suf = some v) (hlater : ∀ t, t <:+ suf → t ≠ suf → k t = none) :
    starRun p k (pre ++ suf) = some v := by
  have hsuf : starRun p k suf = some v := by
    cases suf with
    | nil => simpa [starRun] using hk
    | cons a s =>
      have hnone : starRun p k s = none := by
        cases h : starRun p k s with
        | none => rfl
        | some r =>
          obtain ⟨t, ht, hkt⟩ := starRun_suffix p k s r h
          have hne : t ≠ a :: s := by
            intro e
            have := ht.length_le
            simp [e] at this
          rw [hlater t (ht.trans (List.suffix_cons a s)) hne] at hkt
          exact absurd hkt (by simp)
      unfold starRun
      simp [hnone, hk]
  induction pre with
  | nil => simpa using hsuf
  | cons a pre ih =>
    have h1 := ih (fun x hx => hpre x (List.mem_cons_of_mem _ hx))
    simp [starRun, hpre a (List.mem_cons_self _ _), h1]

theorem search_of_matchAt (re : Re) (s : List Char) (cs : Caps) (h : re.matchAt s = some cs) :
    re.search s = some cs := by
  cases s with
  | nil => exact h
  | cons a s => simp [Re.search, h]

theorem isToken_noSpace (s : String) (h : isToken s) : s ≠ "" ∧ noSpace s := by
  refine ⟨h.1, fun c hc => ?_⟩
  obtain ⟨h1, h2, h3, h4, h5⟩ := h.2 c hc
  simp [isSpace, h1, h2, h3, h4, h5]

theorem noSpace_count (s : String) (h : noSpace s) : s.data.count ' ' = 0 := by
  rw [List.count_eq_zero]
  intro hm
  have := h _ hm
  simp [isSpace] at this

theorem noSpace_test (s : String) (h : noSpace s) :
    ∀ c ∈ s.data, Cls.notSpace.test c = true := by
  intro c hc
  simp [Cls.test, h c hc]

theorem files_data (X Y Z W : String) :
    ("Files: " ++ X ++ " total, " ++ Y ++ " bytes; " ++ Z ++ " new, " ++ W ++ " bytes").data =
    "Files".data ++ (": ".data ++ (X.data ++ (" total, ".data ++ (Y.data ++ (" bytes; ".data ++
      (Z.data ++ (" new, ".data ++ (W.data ++ (" bytes".data ++ []))))))))) := by
  simp only [String.data_append, List.append_assoc, List.append_nil]
  rfl

theorem run_star {α : Type} (c : Cls) (s : List Char) (cs : Caps)
    (k : List Char → Caps → Option α) :
    (Re.star c).run s cs k = starRun c.test (fun t => k t cs) s := rfl

theorem data_ne_nil (s : String) (h : s ≠ "") : s.data ≠ [] := by
  intro e
  apply h
  cases s
  simp only at e
  subst e
  rfl

theorem filesRe_eq : filesRe = Re.cat (.star .dot) filesTail := rfl

theorem run_filesTail {α : Type} (X Y Z W : String)
    (hX : X ≠ "" ∧ noSpace X) (hY : Y ≠ "" ∧ noSpace Y) (hZ : Z ≠ "" ∧ noSpace Z)
    (hW : W ≠ "" ∧ noSpace W) (cs : Caps) (k : List Char → Caps → Option α) (v : α)
    (hk : k [] ((((cs.set 1 X.data).set 2 Y.data).set 3 Z.data).set 4 W.data) = some v) :
    filesTail.run (": ".data ++ (X.data ++ (" total, ".data ++ (Y.data ++
      (" bytes; ".data ++ (Z.data ++ (" new, ".data ++ (W.data ++ (" bytes".data ++ [])))))))))
      cs k = some v := by
  simp only [filesTail, Re.seq, run_cat, run_eps]
  rw [run_str_append]
  refine run_group_plus 1 _ X.data _ _ _ v (data_ne_nil X hX.1) (noSpace_test X hX.2)
    (by intro y ys h; injection h with h1 _; subst h1; rfl) ?_
  rw [run_str_append]
  refine run_group_plus 2 _ Y.data _ _ _ v (data_ne_nil Y hY.1) (noSpace_test Y hY.2)
    (by intro y ys h; injection h with h1 _; subst h1; rfl) ?_
  rw [run_str_append]
  refine run_group_plus 3 _ Z.data _ _ _ v (data_ne_nil Z hZ.1) (noSpace_test Z hZ.2)
    (by intro y ys h; injection h with h1 _; subst h1; rfl) ?_
  rw [run_str_append]
  refine run_group_plus 4 _ W.data _ _ _ v (data_ne_nil W hW.1) (noSpace_test W hW.2)
    (by intro y ys h; injection h with h1 _; subst h1; rfl) ?_
  rw [run_str_append]
  exact hk

theorem run_files {α : Type} (X Y Z W : String)
    (hX : X ≠ "" ∧ noSpace X) (hY : Y ≠ "" ∧ noSpace Y) (hZ : Z ≠ "" ∧ noSpace Z)
    (hW : W ≠ "" ∧ noSpace W) (cs : Caps) (k : List Char → Caps → Option α) (v : α)
    (hk : k [] ((((cs.set 1 X.data).set 2 Y.data).set 3 Z.data).set 4 W.data) = some v) :
    filesRe.run ("Files".data ++ (": ".data ++ (X.data ++ (" total, ".data ++ (Y.data ++
      (" bytes; ".data ++ (Z.data ++ (" new, ".data ++ (W.data ++ (" bytes".data ++ []))))))))))
      cs k = some v := by
  rw [filesRe_eq, run_cat, run_star]
  refine starRun_first _ _ "Files".data _ v (by decide) ?_ ?_
  · exact run_filesTail X Y Z W hX hY hZ hW cs k v hk
  · intro t hs hne
    change t <:+ ':' :: ' ' :: _ at hs
    rw [List.suffix_cons_iff] at hs
    rcases hs with hs | hs
    · exact absurd hs hne
    · rw [List.suffix_cons_iff] at hs
      rcases hs with hs | hs
      · subst hs
        simp [filesTail, Re.seq, Re.str, run_cat, Re.run, Cls.test]
      · cases hr : filesTail.run t cs k with
        | none => rfl
        | some r =>
          exfalso
          obtain ⟨t1, cs1, _, _, hc⟩ := run_some ' ' filesTail t cs k r hr
          have h8 : filesTail.minCount ' ' = 8 := by decide
          have hle := hs.sublist.count_le ' '
          simp [List.count_append, noSpace_count, hX.2, hY.2, hZ.2, hW.2] at hle
          omega

theorem FindStringSubmatch_files (X Y Z W : String)
    (hX : isToken X) (hY : isToken Y) (hZ : isToken Z) (hW : isToken W) :
    FindStringSubmatch filesRe
      ("Files: " ++ X ++ " total, " ++ Y ++ " bytes; " ++ Z ++ " new, " ++ W ++ " bytes") =
    ["Files: " ++ X ++ " total, " ++ Y ++ " bytes; " ++ Z ++ " new, " ++ W ++ " bytes",
      X, Y, Z, W] := by
  have hm := run_files X Y Z W (isToken_noSpace X hX) (isToken_noSpace Y hY)
    (isToken_noSpace Z hZ) (isToken_noSpace W hW) (List.replicate (filesRe.numGroups + 1) [])
    (fun t cs => some (cs.set 0 ((("Files: " ++ X ++ " total, " ++ Y ++ " bytes; " ++ Z ++
      " new, " ++ W ++ " bytes").data).take (("Files: " ++ X ++ " total, " ++ Y ++ " bytes; " ++
      Z ++ " new, " ++ W ++ " bytes").data.length - t.length)))) _ rfl
  rw [← files_data] at hm
  generalize ("Files: " ++ X ++ " total, " ++ Y ++ " bytes; " ++ Z ++ " new, " ++ W ++
    " bytes") = line at hm ⊢
  unfold FindStringSubmatch
  rw [search_of_matchAt _ _ _ hm]
  have htake : List.take line.length line.data = line.data := List.take_length line.data
  simp [show filesRe.numGroups = 4 from rfl, List.replicate, htake]


theorem chunksRe_eq : chunksRe = Re.cat (.star .dot) chunksTail := rfl

theorem chunks_data (A B C D E : String) :
    ("All chunks: " ++ A ++ " total, " ++ B ++ " bytes; " ++ C ++ " new, " ++ D ++ " bytes, " ++
      E ++ " bytes uploaded").data =
    "All chunks".data ++ (": ".data ++ (A.data ++ (" total, ".data ++ (B.data ++
      (" bytes; ".data ++ (C.data ++ (" new, ".data ++ (D.data ++ (" bytes, ".data ++
      (E.data ++ (" bytes uploaded".data ++ []))))))))))) := by
  simp only [String.data_append, List.append_assoc, List.append_nil]
  rfl

theorem run_chunksTail {α : Type} (A B C D E : String)
    (hA : A ≠ "" ∧ noSpace A) (hB : B ≠ "" ∧ noSpace B) (hC : C ≠ "" ∧ noSpace C)
    (hD : D ≠ "" ∧ noSpace D) (hE : E ≠ "" ∧ noSpace E)
    (cs : Caps) (k : List Char → Caps → Option α) (v : α)
    (hk : k [] (((((cs.set 1 A.data).set 2 B.data).set 3 C.data).set 4 D.data).set 5 E.data) =
      some v) :
    chunksTail.run (": ".data ++ (A.data ++ (" total, ".data ++ (B.data ++
      (" bytes; ".data ++ (C.data ++ (" new, ".data ++ (D.data ++ (" bytes, ".data ++
      (E.data ++ (" bytes uploaded".data ++ [])))))))))))
      cs k = some v := by
  simp only [chunksTail, Re.seq, run_cat, run_eps]
  rw [run_str_append]
  refine run_group_plus 1 _ A.data _ _ _ v (data_ne_nil A hA.1) (noSpace_test A hA.2)
    (by intro y ys h; injection h with h1 _; subst h1; rfl) ?_
  rw [run_str_append]
  refine run_group_plus 2 _ B.data _ _ _ v (data_ne_nil B hB.1) (noSpace_test B hB.2)
    (by intro y ys h; injection h with h1 _; subst h1; rfl) ?_
  rw [run_str_append]
  refine run_group_plus 3 _ C.data _ _ _ v (data_ne_nil C hC.1) (noSpace_test C hC.2)
    (by intro y ys h; injection h with h1 _; subst h1; rfl) ?_
  rw [run_str_append]
  refine run_group_plus 4 _ D.data _ _ _ v (data_ne_nil D hD.1) (noSpace_test D hD.2)
    (by intro y ys h; injection h with h1 _; subst h1; rfl) ?_
  rw [run_str_append]
  refine run_group_plus 5 _ E.data _ _ _ v (data_ne_nil E hE.1) (noSpace_test E hE.2)
    (by intro y ys h; injection h with h1 _; subst h1; rfl) ?_
  rw [run_str_append]
  exact hk

theorem run_chunks {α : Type} (A B C D E : String)
    (hA : A ≠ "" ∧ noSpace A) (hB : B ≠ "" ∧ noSpace B) (hC : C ≠ "" ∧ noSpace C)
    (hD : D ≠ "" ∧ noSpace D) (hE : E ≠ "" ∧ noSpace E)
    (cs : Caps) (k : List Char → Caps → Option α) (v : α)
    (hk : k [] (((((cs.set 1 A.data).set 2 B.data).set 3 C.data).set 4 D.data).set 5 E.data) =
      some v) :
    chunksRe.run ("All chunks".data ++ (": ".data ++ (A.data ++ (" total, ".data ++ (B.data ++
      (" bytes; ".data ++ (C.data ++ (" new, ".data ++ (D.data ++ (" bytes, ".data ++
      (E.data ++ (" bytes uploaded".data ++ []))))))))))))
      cs k = some v := by
  rw [chunksRe_eq, run_cat, run_star]
  refine starRun_first _ _ "All chunks".data _ v (by decide) ?_ ?_
  · exact run_chunksTail A B C D E hA hB hC hD hE cs k v hk
  · intro t hs hne
    change t <:+ ':' :: ' ' :: _ at hs
    rw [List.suffix_cons_iff] at hs
    rcases hs with hs | hs
    · exact absurd hs hne
    · rw [List.suffix_cons_iff] at hs
      rcases hs with hs | hs
      · subst hs
        simp [chunksTail, Re.seq, Re.str, run_cat, Re.run, Cls.test]
      · cases hr : chunksTail.run t cs k with
        | none => rfl
        | some r =>
          exfalso
          obtain ⟨t1, cs1, _, _, hc⟩ := run_some ' ' chunksTail t cs k r hr
          have h11 : chunksTail.minCount ' ' = 11 := by decide
          have hle := hs.sublist.count_le ' '
          simp [List.count_append, noSpace_count, hA.2, hB.2, hC.2, hD.2, hE.2] at hle
          omega

theorem FindStringSubmatch_chunks (A B C D E : String)
    (hA : isToken A) (hB : isToken B) (hC : isToken C) (hD : isToken D) (hE : isToken E) :
    FindStringSubmatch chunksRe
      ("All chunks: " ++ A ++ " total, " ++ B ++ " bytes; " ++ C ++ " new, " ++ D ++
        " bytes, " ++ E ++ " bytes uploaded") =
    ["All chunks: " ++ A ++ " total, " ++ B ++ " bytes; " ++ C ++ " new, " ++ D ++
        " bytes, " ++ E ++ " bytes uploaded", A, B, C, D, E] := by
  have hm := run_chunks A B C D E (isToken_noSpace A hA) (isToken_noSpace B hB)
    (isToken_noSpace C hC) (isToken_noSpace D hD) (isToken_noSpace E hE)
    (List.replicate (chunksRe.numGroups + 1) [])
    (fun t cs => some (cs.set 0 ((("All chunks: " ++ A ++ " total, " ++ B ++ " bytes; " ++ C ++
      " new, " ++ D ++ " bytes, " ++ E ++ " bytes uploaded").data).take (("All chunks: " ++ A ++
      " total, " ++ B ++ " bytes; " ++ C ++ " new, " ++ D ++ " bytes, " ++ E ++
      " bytes uploaded").data.length - t.length)))) _ rfl
  rw [← chunks_data] at hm
  generalize ("All chunks: " ++ A ++ " total, " ++ B ++ " bytes; " ++ C ++ " new, " ++ D ++
    " bytes, " ++ E ++ " bytes uploaded") = line at hm ⊢
  unfold FindStringSubmatch
  rw [search_of_matchAt _ _ _ hm]
  have htake : List.take line.length line.data = line.data := List.take_length line.data
  simp [show chunksRe.numGroups = 5 from rfl, List.replicate, htake]

/-! ## The line classifiers -/

theorem hasPrefix_files (X Y Z W : String) :
    HasPrefix ("Files: " ++ X ++ " total, " ++ Y ++ " bytes; " ++ Z ++ " new, " ++ W ++ " bytes")
      "Files:" = true := by
  simp [HasPrefix, String.data_append]

theorem hasPrefix_chunks (A B C D E : String) :
    HasPrefix ("All chunks: " ++ A ++ " total, " ++ B ++ " bytes; " ++ C ++ " new, " ++ D ++
      " bytes, " ++ E ++ " bytes uploaded") "All chunks:" = true ∧
    HasPrefix ("All chunks: " ++ A ++ " total, " ++ B ++ " bytes; " ++ C ++ " new, " ++ D ++
      " bytes, " ++ E ++ " bytes uploaded") "Files:" = false := by
  simp [HasPrefix, String.data_append, List.isPrefixOf]

/-- C1: a line `Files: X total, Y bytes; Z new, W bytes` whose four tokens are
non-empty and free of whitespace makes the backup classifier store exactly
the strings `X`, `Y`, `Z`, `W` in the four file fields; every other field of
the entry, the five chunk fields among them, keeps its value. -/
theorem backupLogger_files_line (X Y Z W : String)
    (hX : isToken X) (hY : isToken Y) (hZ : isToken Z) (hW : isToken W)
    (backupEntry : backupRevision) :
    backupLogger
      ("Files: " ++ X ++ " total, " ++ Y ++ " bytes; " ++ Z ++ " new, " ++ W ++ " bytes")
      backupEntry =
    some ([LogEvent.println
        ("Files: " ++ X ++ " total, " ++ Y ++ " bytes; " ++ Z ++ " new, " ++ W ++ " bytes"),
      LogEvent.logMessage true ("  " ++
        ("Files: " ++ X ++ " total, " ++ Y ++ " bytes; " ++ Z ++ " new, " ++ W ++ " bytes"))],
      { storage := backupEntry.storage,
        filesTotalCount := X, filesTotalSize := Y, filesNewCount := Z, filesNewSize := W,
        chunkTotalCount := backupEntry.chunkTotalCount,
        chunkTotalSize := backupEntry.chunkTotalSize,
        chunkNewCount := backupEntry.chunkNewCount,
        chunkNewSize := backupEntry.chunkNewSize,
        chunkNewUploaded := backupEntry.chunkNewUploaded,
        duration := backupEntry.duration }) := by
  unfold backupLogger
  simp only [hasPrefix_files, FindStringSubmatch_files X Y Z W hX hY hZ hW, if_true]
  rfl

/-- C1 at the line `Files: 161318 total, 1,666G bytes; 373 new, 15,951M bytes`:
the token `1,666G` is stored as it stands. -/
theorem backupLogger_files_line_witness :
    backupLogger "Files: 161318 total, 1,666G bytes; 373 new, 15,951M bytes" {} =
    some ([LogEvent.println "Files: 161318 total, 1,666G bytes; 373 new, 15,951M bytes",
      LogEvent.logMessage true "  Files: 161318 total, 1,666G bytes; 373 new, 15,951M bytes"],
      { filesTotalCount := "161318", filesTotalSize := "1,666G", filesNewCount := "373",
        filesNewSize := "15,951M" }) :=
  backupLogger_files_line "161318" "1,666G" "373" "15,951M" (by decide) (by decide)
    (by decide) (by decide) {}

theorem files_elements (line : String) :
    FindStringSubmatch filesRe line = [] ∨
      ∃ a b c d e, FindStringSubmatch filesRe line = [a, b, c, d, e] := by
  rcases FindStringSubmatch_length filesRe line with h | h
  · exact Or.inl h
  · right
    rw [show filesRe.numGroups = 4 from rfl] at h
    generalize FindStringSubmatch filesRe line = els at h
    rcases els with _ | ⟨a, _ | ⟨b, _ | ⟨c, _ | ⟨d, _ | ⟨e, _ | ⟨f, r⟩⟩⟩⟩⟩⟩ <;>
      simp at h
    exact ⟨a, b, c, d, e, rfl⟩

theorem chunks_elements (line : String) :
    FindStringSubmatch chunksRe line = [] ∨
      ∃ a b c d e f, FindStringSubmatch chunksRe line = [a, b, c, d, e, f] := by
  rcases FindStringSubmatch_length chunksRe line with h | h
  · exact Or.inl h
  · right
    rw [show chunksRe.numGroups = 5 from rfl] at h
    generalize FindStringSubmatch chunksRe line = els at h
    rcases els with _ | ⟨a, _ | ⟨b, _ | ⟨c, _ | ⟨d, _ | ⟨e, _ | ⟨f, _ | ⟨g, r⟩⟩⟩⟩⟩⟩⟩ <;>
      simp at h
    exact ⟨a, b, c, d, e, f, rfl⟩

theorem copy_elements (line : String) :
    FindStringSubmatch copyRe line = [] ∨
      ∃ a b c d, FindStringSubmatch copyRe line = [a, b, c, d] := by
  rcases FindStringSubmatch_length copyRe line with h | h
  · exact Or.inl h
  · right
    rw [show copyRe.numGroups = 3 from rfl] at h
    generalize FindStringSubmatch copyRe line = els at h
    rcases els with _ | ⟨a, _ | ⟨b, _ | ⟨c, _ | ⟨d, _ | ⟨e, r⟩⟩⟩⟩⟩ <;>
      simp at h
    exact ⟨a, b, c, d, rfl⟩

theorem backupLogger_isSome (line : String) (backupEntry : backupRevision) :
    (backupLogger line backupEntry).isSome = true := by
  unfold backupLogger
  split
  · rcases files_elements line with h | ⟨a, b, c, d, e, h⟩ <;> simp [h]
  · split
    · rcases chunks_elements line with h | ⟨a, b, c, d, e, f, h⟩ <;> simp [h]
    · split <;> rfl

theorem copyLogger_isSome (line : String) (copyEntry : copyRevision) :
    (copyLogger line copyEntry).isSome = true := by
  unfold copyLogger
  split
  · rcases copy_elements line with h | ⟨a, b, c, d, h⟩ <;> simp [h]
  · rfl

theorem hasPrefix_chunks_not_files (line : String) (h : HasPrefix line "All chunks:" = true) :
    HasPrefix line "Files:" = false := by
  unfold HasPrefix at h ⊢
  cases hl : line.data with
  | nil => rw [hl] at h; simp [List.isPrefixOf] at h
  | cons a l =>
    rw [hl] at h
    simp only [List.isPrefixOf, Bool.and_eq_true, beq_iff_eq] at h
    simp [List.isPrefixOf, ← h.1]

/-- C7: the classifiers return normally on every line (each `elements[i]` they
read is inside the slice), the guard `len(elements) >= 4` of the "Files:"
branch implies `len(elements) >= 5`, and a line with a known prefix whose body
does not match the pattern leaves the captured entry as it was. -/
theorem classifiers_total (line : String) (backupEntry : backupRevision)
    (copyEntry : copyRevision) :
    (backupLogger line backupEntry).isSome = true ∧
    (copyLogger line copyEntry).isSome = true ∧
    (4 ≤ (FindStringSubmatch filesRe line).length →
      5 ≤ (FindStringSubmatch filesRe line).length) ∧
    (HasPrefix line "Files:" = true → FindStringSubmatch filesRe line = [] →
      backupLogger line backupEntry =
        some ([LogEvent.println line, LogEvent.logMessage true ("  " ++ line)], backupEntry)) ∧
    (HasPrefix line "All chunks:" = true → FindStringSubmatch chunksRe line = [] →
      backupLogger line backupEntry =
        some ([LogEvent.println line, LogEvent.logMessage true ("  " ++ line)], backupEntry)) ∧
    (HasPrefix line "Copy complete, " = true → FindStringSubmatch copyRe line = [] →
      copyLogger line copyEntry =
        some ([LogEvent.println line, LogEvent.logMessage true ("  " ++ line)], copyEntry)) := by
  refine ⟨backupLogger_isSome line backupEntry, copyLogger_isSome line copyEntry, ?_, ?_, ?_, ?_⟩
  · intro h
    rcases files_elements line with h0 | ⟨a, b, c, d, e, h5⟩
    · rw [h0] at h; simp at h
    · rw [h5]; simp
  · intro hp h0
    simp [backupLogger, hp, h0]
  · intro hp h0
    simp [backupLogger, hp, hasPrefix_chunks_not_files line hp, h0]
  · intro hp h0
    simp [copyLogger, hp, h0]

/-- C8: a line `All chunks: A total, B bytes; C new, D bytes, E bytes uploaded`
with non-empty whitespace-free tokens stores `A`..`E` in the five chunk
fields, and a line with the prefix `All chunks:` for which fewer than five
groups are found leaves the entry unchanged, the classifier returning
normally. -/
theorem backupLogger_chunks_line (A B C D E : String)
    (hA : isToken A) (hB : isToken B) (hC : isToken C) (hD : isToken D) (hE : isToken E)
    (backupEntry : backupRevision) :
    backupLogger
      ("All chunks: " ++ A ++ " total, " ++ B ++ " bytes; " ++ C ++ " new, " ++ D ++
        " bytes, " ++ E ++ " bytes uploaded")
      backupEntry =
    some ([LogEvent.println
        ("All chunks: " ++ A ++ " total, " ++ B ++ " bytes; " ++ C ++ " new, " ++ D ++
          " bytes, " ++ E ++ " bytes uploaded"),
      LogEvent.logMessage true ("  " ++
        ("All chunks: " ++ A ++ " total, " ++ B ++ " bytes; " ++ C ++ " new, " ++ D ++
          " bytes, " ++ E ++ " bytes uploaded"))],
      { storage := backupEntry.storage,
        filesTotalCount := backupEntry.filesTotalCount,
        filesTotalSize := backupEntry.filesTotalSize,
        filesNewCount := backupEntry.filesNewCount,
        filesNewSize := backupEntry.filesNewSize,
        chunkTotalCount := A, chunkTotalSize := B, chunkNewCount := C, chunkNewSize := D,
        chunkNewUploaded := E,
        duration := backupEntry.duration }) ∧
    ∀ line : String, HasPrefix line "All chunks:" = true →
      (FindStringSubmatch chunksRe line).length < 6 →
      backupLogger line backupEntry =
        some ([LogEvent.println line, LogEvent.logMessage true ("  " ++ line)], backupEntry) := by
  constructor
  · unfold backupLogger
    simp only [hasPrefix_chunks, FindStringSubmatch_chunks A B C D E hA hB hC hD hE, if_true]
    rfl
  · intro line hp hlen
    have hnot : ¬ (FindStringSubmatch chunksRe line).length ≥ 6 := by omega
    simp [backupLogger, hp, hasPrefix_chunks_not_files line hp, hnot]

/-- C8 at the line of the source comment, and at a line that lacks the
` bytes uploaded` part. -/
theorem backupLogger_chunks_line_witness :
    backupLogger
      "All chunks: 348444 total, 1668G bytes; 2415 new, 12,391M bytes, 12,255M bytes uploaded"
      {} =
    some ([LogEvent.println
        "All chunks: 348444 total, 1668G bytes; 2415 new, 12,391M bytes, 12,255M bytes uploaded",
      LogEvent.logMessage true
        "  All chunks: 348444 total, 1668G bytes; 2415 new, 12,391M bytes, 12,255M bytes uploaded"],
      { chunkTotalCount := "348444", chunkTotalSize := "1668G", chunkNewCount := "2415",
        chunkNewSize := "12,391M", chunkNewUploaded := "12,255M" }) ∧
    backupLogger "All chunks: 348444 total, 1668G bytes; 2415 new, 12,391M bytes" {} =
      some ([LogEvent.println "All chunks: 348444 total, 1668G bytes; 2415 new, 12,391M bytes",
        LogEvent.logMessage true
          "  All chunks: 348444 total, 1668G bytes; 2415 new, 12,391M bytes"], {}) :=
  ⟨(backupLogger_chunks_line "348444" "1668G" "2415" "12,391M" "12,255M" (by decide)
      (by decide) (by decide) (by decide) (by decide) {}).1,
    (backupLogger_chunks_line "348444" "1668G" "2415" "12,391M" "12,255M" (by decide)
      (by decide) (by decide) (by decide) (by decide) {}).2
      "All chunks: 348444 total, 1668G bytes; 2415 new, 12,391M bytes" (by decide) (by decide)⟩

/-! ## The executor and the loops -/

theorem feed_spec {α : Type} (cb : Callback α) (hcb : ∀ l a, (cb l a).isSome = true) :
    ∀ (lines : List String) (st : State) (a : α), ∃ st1 a1,
      feed cb lines st a = some (st1, a1) ∧ st1.calls = st.calls ∧
      st1.backupTable = st.backupTable ∧ st1.copyTable = st.copyTable ∧
      st1.clock = st.clock := by
  intro lines
  induction lines with
  | nil => intro st a; exact ⟨st, a, rfl, rfl, rfl, rfl, rfl⟩
  | cons l ls ih =>
    intro st a
    have h := hcb l a
    cases hc : cb l a with
    | none => rw [hc] at h; simp at h
    | some r =>
      obtain ⟨out, a1⟩ := r
      obtain ⟨st1, a2, hf, h1, h2, h3, h4⟩ := ih { st with log := st.log ++ out } a1
      exact ⟨st1, a2, by simp [feed, hc, hf], h1, h2, h3, h4⟩

theorem Executor_spec {α : Type} (env : Env) (path : String) (args : List String)
    (dir : String) (cb : Callback α) (hcb : ∀ l a, (cb l a).isSome = true) (st : State)
    (a : α) : ∃ st1 a1,
      Executor env path args dir cb st a =
        some (st1, a1, (env.Executor st.calls.length
          { path := path, args := args, dir := dir }).err) ∧
      st1.calls = st.calls ++ [{ path := path, args := args, dir := dir }] ∧
      st1.backupTable = st.backupTable ∧ st1.copyTable = st.copyTable ∧
      st1.clock = st.clock := by
  obtain ⟨st1, a1, hf, h1, h2, h3, h4⟩ := feed_spec cb hcb
    (env.Executor st.calls.length { path := path, args := args, dir := dir }).lines
    { st with calls := st.calls ++ [{ path := path, args := args, dir := dir }] } a
  exact ⟨st1, a1, by simp [Executor, hf], h1, h2, h3, h4⟩

theorem Executor_post {α : Type} (env : Env) (path : String) (args : List String)
    (dir : String) (cb : Callback α) (st : State) (a : α) (st1 : State) (a1 : α)
    (err : Option String) (h : Executor env path args dir cb st a = some (st1, a1, err)) :
    err = (env.Executor st.calls.length { path := path, args := args, dir := dir }).err ∧
    st1.calls = st.calls ++ [{ path := path, args := args, dir := dir }] ∧
    st1.backupTable = st.backupTable ∧ st1.copyTable = st.copyTable ∧
    st1.clock = st.clock := by
  have hfeed : ∀ (lines : List String) (s : State) (x : α) (s1 : State) (x1 : α),
      feed cb lines s x = some (s1, x1) → s1.calls = s.calls ∧
        s1.backupTable = s.backupTable ∧ s1.copyTable = s.copyTable ∧ s1.clock = s.clock := by
    intro lines
    induction lines with
    | nil =>
      intro s x s1 x1 hf
      simp only [feed, Option.some.injEq, Prod.mk.injEq] at hf
      obtain ⟨rfl, _⟩ := hf
      exact ⟨rfl, rfl, rfl, rfl⟩
    | cons l ls ih =>
      intro s x s1 x1 hf
      simp only [feed] at hf
      split at hf
      · simp at hf
      · have := ih _ _ _ _ hf
        simpa using this
  simp only [Executor] at h
  split at h
  · simp at h
  · rename_i s2 a2 hf
    simp only [Option.some.injEq, Prod.mk.injEq] at h
    obtain ⟨rfl, rfl, rfl⟩ := h
    have := hfeed _ _ _ _ _ hf
    simpa using this

theorem Executor_ne_none {α : Type} (env : Env) (path : String) (args : List String)
    (dir : String) (cb : Callback α) (hcb : ∀ l a, (cb l a).isSome = true) (st : State)
    (a : α) : Executor env path args dir cb st a ≠ none := by
  obtain ⟨st1, a1, hx, _⟩ := Executor_spec env path args dir cb hcb st a
  rw [hx]; simp

/-- One iteration of the backup loop: the executor is invoked once with the
target argument vector; on an error the loop returns it with the table
untouched, otherwise one entry named after the target is appended and the loop
goes on with the remaining targets. -/
theorem backupLoop_step (cfg : Config) (env : Env) (t : Target) (rest : List Target)
    (st : State) (be : backupRevision) :
    (∀ e, (env.Executor st.calls.length (mkCall cfg (backupCmd t).1)).err = some e →
      ∃ st1 be1, backupLoop cfg env (t :: rest) st be = some (st1, be1, some e) ∧
        st1.calls = st.calls ++ [mkCall cfg (backupCmd t).1] ∧
        st1.backupTable = st.backupTable ∧ st1.copyTable = st.copyTable) ∧
    ((env.Executor st.calls.length (mkCall cfg (backupCmd t).1)).err = none →
      ∃ st1 be1, backupLoop cfg env (t :: rest) st be = backupLoop cfg env rest st1 be1 ∧
        st1.calls = st.calls ++ [mkCall cfg (backupCmd t).1] ∧
        st1.backupTable = st.backupTable ++ [be1] ∧ be1.storage = Target.get t "name" ∧
        st1.copyTable = st.copyTable) := by
  constructor
  · intro e he
    simp only [backupLoop]
    split
    · rename_i hx
      exact absurd hx (Executor_ne_none _ _ _ _ _ backupLogger_isSome _ _)
    · rename_i st1 be1 err hx
      have hp := Executor_post _ _ _ _ _ _ _ _ _ _ hx
      simp only [apply_ite State.calls, apply_ite State.backupTable, apply_ite State.copyTable,
        State.logMessage, State.println, State.tick, ite_self] at hp
      rw [mkCall] at he
      rw [he] at hp
      obtain ⟨h0, h1, h2, h3, _⟩ := hp
      injection h0 with h0
      subst h0
      exact ⟨_, _, rfl, by simpa [State.logError, mkCall] using h1,
        by simpa [State.logError] using h2, by simpa [State.logError] using h3⟩
    · rename_i st1 be1 hx
      have hp := Executor_post _ _ _ _ _ _ _ _ _ _ hx
      simp only [apply_ite State.calls, State.logMessage, State.println, State.tick,
        ite_self] at hp
      rw [mkCall] at he
      rw [he] at hp
      exact absurd hp.1 (by simp)
  · intro he
    simp only [backupLoop]
    split
    · rename_i hx
      exact absurd hx (Executor_ne_none _ _ _ _ _ backupLogger_isSome _ _)
    · rename_i st1 be1 err hx
      have hp := Executor_post _ _ _ _ _ _ _ _ _ _ hx
      simp only [apply_ite State.calls, State.logMessage, State.println, State.tick,
        ite_self] at hp
      rw [mkCall] at he
      rw [he] at hp
      exact absurd hp.1 (by simp)
    · rename_i st1 be1 hx
      have hp := Executor_post _ _ _ _ _ _ _ _ _ _ hx
      simp only [apply_ite State.calls, apply_ite State.backupTable, apply_ite State.copyTable,
        State.logMessage, State.println, State.tick, ite_self] at hp
      obtain ⟨_, h1, h2, h3, _⟩ := hp
      exact ⟨_, _, rfl, by simpa [mkCall, State.logMessage, State.tick] using h1,
        by simp [h2, State.logMessage, State.tick], rfl,
        by simpa [State.logMessage, State.tick] using h3⟩

theorem backupLoop_failure (cfg : Config) (env : Env) (tk : Target) (post : List Target)
    (e : String) : ∀ (pre : List Target) (st : State) (be : backupRevision),
    (∀ i t, pre[i]? = some t →
      (env.Executor (st.calls.length + i) (mkCall cfg (backupCmd t).1)).err = none) →
    (env.Executor (st.calls.length + pre.length) (mkCall cfg (backupCmd tk).1)).err = some e →
    ∃ st1 be1, backupLoop cfg env (pre ++ tk :: post) st be = some (st1, be1, some e) ∧
      st1.calls = st.calls ++ (pre ++ [tk]).map (fun t => mkCall cfg (backupCmd t).1) ∧
      (∃ new, st1.backupTable = st.backupTable ++ new ∧
        new.map (fun r => r.storage) = pre.map (fun t => Target.get t "name")) ∧
      st1.copyTable = st.copyTable := by
  intro pre
  induction pre with
  | nil =>
    intro st be _ hfail
    obtain ⟨st1, be1, h, hc, hb, hcp⟩ := (backupLoop_step cfg env tk post st be).1 e
      (by simpa using hfail)
    exact ⟨st1, be1, by simpa using h, by simpa using hc, ⟨[], by simp [hb], rfl⟩, hcp⟩
  | cons t pre ih =>
    intro st be hok hfail
    obtain ⟨st1, be1, h, hc, hb, hs, hcp⟩ := (backupLoop_step cfg env t (pre ++ tk :: post)
      st be).2 (by simpa using hok 0 t (by simp))
    have hlen : st1.calls.length = st.calls.length + 1 := by simp [hc]
    obtain ⟨st2, be2, h2, hc2, ⟨new, hb2, hn⟩, hcp2⟩ := ih st1 be1
      (by
        intro i u hu
        have := hok (i + 1) u (by simpa using hu)
        rw [hlen]
        rw [show st.calls.length + 1 + i = st.calls.length + (i + 1) by omega]
        exact this)
      (by
        rw [hlen]
        rw [show st.calls.length + 1 + pre.length = st.calls.length + (t :: pre).length by
          simp; omega]
        exact hfail)
    refine ⟨st2, be2, ?_, ?_, ⟨be1 :: new, ?_, ?_⟩, ?_⟩
    · rw [List.cons_append, h, h2]
    · rw [hc2, hc]; simp
    · rw [hb2, hb]; simp
    · simp [hn, hs]
    · rw [hcp2, hcp]

/-- C2: if the invocations for the targets before the `k`-th succeed and the
invocation for the `k`-th fails with `e`, then `performDuplicacyBackup`
returns `e`, the backup table is the table before followed by one entry per
earlier target, named after it and in configuration order, and the executor
has been invoked exactly for the first `k` backup targets: no later backup
target and no copy target is run. -/
theorem performDuplicacyBackup_failure (cfg : Config) (env : Env) (st : State)
    (pre : List Target) (tk : Target) (post : List Target) (e : String)
    (hcfg : cfg.backupInfo = pre ++ tk :: post)
    (hok : ∀ i t, pre[i]? = some t →
      (env.Executor (st.calls.length + i) (mkCall cfg (backupCmd t).1)).err = none)
    (hfail : (env.Executor (st.calls.length + pre.length)
      (mkCall cfg (backupCmd tk).1)).err = some e) :
    ∃ st1, performDuplicacyBackup cfg env st = some (st1, some e) ∧
      (∃ new, st1.backupTable = st.backupTable ++ new ∧ new.length = pre.length ∧
        new.map (fun r => r.storage) = pre.map (fun t => Target.get t "name")) ∧
      st1.calls = st.calls ++ (pre ++ [tk]).map (fun t => mkCall cfg (backupCmd t).1) ∧
      st1.calls.length = st.calls.length + (pre.length + 1) ∧
      st1.copyTable = st.copyTable := by
  obtain ⟨st1, be1, h, hc, ⟨new, hb, hn⟩, hcp⟩ :=
    backupLoop_failure cfg env tk post e pre st {} hok hfail
  refine ⟨st1, ?_, ⟨new, hb, ?_, hn⟩, hc, ?_, hcp⟩
  · simp [performDuplicacyBackup, hcfg, h]
  · simpa using congrArg List.length hn
  · simp [hc]

/-- C2 with two targets, the second one failing, on an empty table: the phase
returns the error and the table holds one entry, for the first target. -/
theorem performDuplicacyBackup_failure_witness :
    ∃ st1, performDuplicacyBackup twoTargets secondFails {} = some (st1, some "exit status 1") ∧
      (∃ new, st1.backupTable = [] ++ new ∧ new.length = 1 ∧
        new.map (fun r => r.storage) = ["b2"]) ∧
      st1.calls = [] ++ [mkCall twoTargets ["backup", "-storage", "b2", "-threads", "5", "-stats"],
        mkCall twoTargets ["backup", "-storage", "s3", "-threads", "1", "-stats"]] ∧
      st1.calls.length = 0 + (1 + 1) ∧
      st1.copyTable = [] :=
  performDuplicacyBackup_failure twoTargets secondFails {}
    [[("name", "b2"), ("threads", "5"), ("vss", "false")]] [("name", "s3"), ("threads", "1")] []
    "exit status 1" rfl
    (by
      intro i t h
      cases i with
      | zero => rfl
      | succ n => simp at h)
    rfl

theorem anon_isSome (l : String) (u : Unit) : (anon l u).isSome = true := rfl

theorem copyLoop_step (cfg : Config) (env : Env) (t : Target) (rest : List Target)
    (st : State) (ce : copyRevision) :
    (∀ e, (env.Executor st.calls.length (mkCall cfg (copyCmd t))).err = some e →
      ∃ st1 ce1, copyLoop cfg env (t :: rest) st ce = some (st1, ce1, some e) ∧
        st1.calls = st.calls ++ [mkCall cfg (copyCmd t)] ∧
        st1.backupTable = st.backupTable ∧ st1.copyTable = st.copyTable) ∧
    ((env.Executor st.calls.length (mkCall cfg (copyCmd t))).err = none →
      ∃ st1 ce1, copyLoop cfg env (t :: rest) st ce = copyLoop cfg env rest st1 ce1 ∧
        st1.calls = st.calls ++ [mkCall cfg (copyCmd t)] ∧
        st1.backupTable = st.backupTable ∧ st1.copyTable = st.copyTable ++ [ce1]) := by
  constructor
  · intro e he
    simp only [copyLoop]
    split
    · rename_i hx
      exact absurd hx (Executor_ne_none _ _ _ _ _ copyLogger_isSome _ _)
    · rename_i st1 ce1 err hx
      have hp := Executor_post _ _ _ _ _ _ _ _ _ _ hx
      simp only [apply_ite State.calls, apply_ite State.backupTable, apply_ite State.copyTable,
        State.logMessage, State.println, State.tick, ite_self] at hp
      rw [mkCall] at he
      rw [he] at hp
      obtain ⟨h0, h1, h2, h3, _⟩ := hp
      injection h0 with h0
      subst h0
      exact ⟨_, _, rfl, by simpa [State.logError, mkCall] using h1,
        by simpa [State.logError] using h2, by simpa [State.logError] using h3⟩
    · rename_i st1 ce1 hx
      have hp := Executor_post _ _ _ _ _ _ _ _ _ _ hx
      simp only [apply_ite State.calls, State.logMessage, State.println, State.tick,
        ite_self] at hp
      rw [mkCall] at he
      rw [he] at hp
      exact absurd hp.1 (by simp)
  · intro he
    simp only [copyLoop]
    split
    · rename_i hx
      exact absurd hx (Executor_ne_none _ _ _ _ _ copyLogger_isSome _ _)
    · rename_i st1 ce1 err hx
      have hp := Executor_post _ _ _ _ _ _ _ _ _ _ hx
      simp only [apply_ite State.calls, State.logMessage, State.println, State.tick,
        ite_self] at hp
      rw [mkCall] at he
      rw [he] at hp
      exact absurd hp.1 (by simp)
    · rename_i st1 ce1 hx
      have hp := Executor_post _ _ _ _ _ _ _ _ _ _ hx
      simp only [apply_ite State.calls, apply_ite State.backupTable, apply_ite State.copyTable,
        State.logMessage, State.println, State.tick, ite_self] at hp
      obtain ⟨_, h1, h2, h3, _⟩ := hp
      exact ⟨_, _, rfl, by simpa [mkCall, State.logMessage, State.tick] using h1,
        by simpa [State.logMessage, State.tick] using h2,
        by simp [h3, State.logMessage, State.tick]⟩

theorem pruneLoop_step (cfg : Config) (env : Env) (t : Target) (rest : List Target)
    (st : State) :
    (∀ e, (env.Executor st.calls.length (mkCall cfg (pruneCmd t))).err = some e →
      ∃ st1, pruneLoop cfg env (t :: rest) st = some (st1, some e) ∧
        st1.calls = st.calls ++ [mkCall cfg (pruneCmd t)] ∧
        st1.backupTable = st.backupTable ∧ st1.copyTable = st.copyTable) ∧
    ((env.Executor st.calls.length (mkCall cfg (pruneCmd t))).err = none →
      ∃ st1, pruneLoop cfg env (t :: rest) st = pruneLoop cfg env rest st1 ∧
        st1.calls = st.calls ++ [mkCall cfg (pruneCmd t)] ∧
        st1.backupTable = st.backupTable ∧ st1.copyTable = st.copyTable) := by
  constructor
  · intro e he
    simp only [pruneLoop]
    split
    · rename_i hx
      exact absurd hx (Executor_ne_none _ _ _ _ _ anon_isSome _ _)
    · rename_i st1 u err hx
      have hp := Executor_post _ _ _ _ _ _ _ _ _ _ hx
      simp only [apply_ite State.calls, apply_ite State.backupTable, apply_ite State.copyTable,
        State.logMessage, State.println, State.tick, ite_self] at hp
      rw [mkCall] at he
      rw [he] at hp
      obtain ⟨h0, h1, h2, h3, _⟩ := hp
      injection h0 with h0
      subst h0
      exact ⟨_, rfl, by simpa [State.logError, mkCall] using h1,
        by simpa [State.logError] using h2, by simpa [State.logError] using h3⟩
    · rename_i st1 u hx
      have hp := Executor_post _ _ _ _ _ _ _ _ _ _ hx
      simp only [apply_ite State.calls, State.logMessage, State.println, State.tick,
        ite_self] at hp
      rw [mkCall] at he
      rw [he] at hp
      exact absurd hp.1 (by simp)
  · intro he
    simp only [pruneLoop]
    split
    · rename_i hx
      exact absurd hx (Executor_ne_none _ _ _ _ _ anon_isSome _ _)
    · rename_i st1 u err hx
      have hp := Executor_post _ _ _ _ _ _ _ _ _ _ hx
      simp only [apply_ite State.calls, State.logMessage, State.println, State.tick,
        ite_self] at hp
      rw [mkCall] at he
      rw [he] at hp
      exact absurd hp.1 (by simp)
    · rename_i st1 u hx
      have hp := Executor_post _ _ _ _ _ _ _ _ _ _ hx
      simp only [apply_ite State.calls, apply_ite State.backupTable, apply_ite State.copyTable,
        State.logMessage, State.println, State.tick, ite_self] at hp
      obtain ⟨_, h1, h2, h3, _⟩ := hp
      exact ⟨_, rfl, by simpa [mkCall] using h1, h2, h3⟩

theorem checkLoop_step (cfg : Config) (env : Env) (t : Target) (rest : List Target)
    (st : State) :
    (∀ e, (env.Executor st.calls.length (mkCall cfg (checkCmd t))).err = some e →
      ∃ st1, checkLoop cfg env (t :: rest) st = some (st1, some e) ∧
        st1.calls = st.calls ++ [mkCall cfg (checkCmd t)] ∧
        st1.backupTable = st.backupTable ∧ st1.copyTable = st.copyTable) ∧
    ((env.Executor st.calls.length (mkCall cfg (checkCmd t))).err = none →
      ∃ st1, checkLoop cfg env (t :: rest) st = checkLoop cfg env rest st1 ∧
        st1.calls = st.calls ++ [mkCall cfg (checkCmd t)] ∧
        st1.backupTable = st.backupTable ∧ st1.copyTable = st.copyTable) := by
  constructor
  · intro e he
    simp only [checkLoop]
    split
    · rename_i hx
      exact absurd hx (Executor_ne_none _ _ _ _ _ anon_isSome _ _)
    · rename_i st1 u err hx
      have hp := Executor_post _ _ _ _ _ _ _ _ _ _ hx
      simp only [apply_ite State.calls, apply_ite State.backupTable, apply_ite State.copyTable,
        State.logMessage, State.println, State.tick, ite_self] at hp
      rw [mkCall] at he
      rw [he] at hp
      obtain ⟨h0, h1, h2, h3, _⟩ := hp
      injection h0 with h0
      subst h0
      exact ⟨_, rfl, by simpa [State.logError, mkCall] using h1,
        by simpa [State.logError] using h2, by simpa [State.logError] using h3⟩
    · rename_i st1 u hx
      have hp := Executor_post _ _ _ _ _ _ _ _ _ _ hx
      simp only [apply_ite State.calls, State.logMessage, State.println, State.tick,
        ite_self] at hp
      rw [mkCall] at he
      rw [he] at hp
      exact absurd hp.1 (by simp)
  · intro he
    simp only [checkLoop]
    split
    · rename_i hx
      exact absurd hx (Executor_ne_none _ _ _ _ _ anon_isSome _ _)
    · rename_i st1 u err hx
      have hp := Executor_post _ _ _ _ _ _ _ _ _ _ hx
      simp only [apply_ite State.calls, State.logMessage, State.println, State.tick,
        ite_self] at hp
      rw [mkCall] at he
      rw [he] at hp
      exact absurd hp.1 (by simp)
    · rename_i st1 u hx
      have hp := Executor_post _ _ _ _ _ _ _ _ _ _ hx
      simp only [apply_ite State.calls, apply_ite State.backupTable, apply_ite State.copyTable,
        State.logMessage, State.println, State.tick, ite_self] at hp
      obtain ⟨_, h1, h2, h3, _⟩ := hp
      exact ⟨_, rfl, by simpa [mkCall] using h1, h2, h3⟩

/-- The invocations of a loop over targets: the loop returns, it has invoked
the executor for a non-empty initial segment of the targets, in order, for
all of them when it returns no error, and an error it returns is the error of
one of its invocations. -/
theorem loop_calls {σ : Type} (env : Env) (mk : Target → Call)
    (loop : List Target → State → σ → Option (State × σ × Option String))
    (hnil : ∀ st a, loop [] st a = some (st, a, none))
    (hstep : ∀ t rest st a,
      (∀ e, (env.Executor st.calls.length (mk t)).err = some e →
        ∃ st1 a1, loop (t :: rest) st a = some (st1, a1, some e) ∧
          st1.calls = st.calls ++ [mk t]) ∧
      ((env.Executor st.calls.length (mk t)).err = none →
        ∃ st1 a1, loop (t :: rest) st a = loop rest st1 a1 ∧
          st1.calls = st.calls ++ [mk t])) :
    ∀ (ts : List Target) (st : State) (a : σ), ∃ st1 a1 err n,
      loop ts st a = some (st1, a1, err) ∧ n ≤ ts.length ∧
      st1.calls = st.calls ++ (ts.take n).map mk ∧ (ts ≠ [] → 0 < n) ∧
      (err = none → n = ts.length) ∧
      (∀ e, err = some e → ∃ i c, st.calls.length ≤ i ∧ st1.calls[i]? = some c ∧
        (env.Executor i c).err = some e) := by
  intro ts
  induction ts with
  | nil =>
    intro st a
    exact ⟨st, a, none, 0, hnil st a, by simp, by simp, by simp, by simp, by simp⟩
  | cons t ts ih =>
    intro st a
    cases he : (env.Executor st.calls.length (mk t)).err with
    | some e =>
      obtain ⟨st1, a1, h, hc⟩ := (hstep t ts st a).1 e he
      refine ⟨st1, a1, some e, 1, h, by simp, by simpa using hc, by simp, by simp, ?_⟩
      intro e1 h1
      injection h1 with h1
      subst h1
      exact ⟨st.calls.length, mk t, le_refl _, by simp [hc], he⟩
    | none =>
      obtain ⟨st1, a1, h, hc⟩ := (hstep t ts st a).2 he
      obtain ⟨st2, a2, err, n, h2, hn, hc2, _, hnone, herr⟩ := ih st1 a1
      refine ⟨st2, a2, err, n + 1, by rw [h, h2], by simpa using hn, ?_, by simp, ?_, ?_⟩
      · rw [hc2, hc]; simp
      · intro h0; simp [hnone h0]
      · intro e1 h1
        obtain ⟨i, c, hi, hci, hex⟩ := herr e1 h1
        refine ⟨i, c, ?_, hci, hex⟩
        have : st1.calls.length = st.calls.length + 1 := by simp [hc]
        omega

theorem backupLoop_calls (cfg : Config) (env : Env) (ts : List Target) (st : State)
    (be : backupRevision) : ∃ st1 be1 err n,
      backupLoop cfg env ts st be = some (st1, be1, err) ∧ n ≤ ts.length ∧
      st1.calls = st.calls ++ (ts.take n).map (fun t => mkCall cfg (backupCmd t).1) ∧
      (ts ≠ [] → 0 < n) ∧ (err = none → n = ts.length) ∧
      (∀ e, err = some e → ∃ i c, st.calls.length ≤ i ∧ st1.calls[i]? = some c ∧
        (env.Executor i c).err = some e) := by
  refine loop_calls env (fun t => mkCall cfg (backupCmd t).1) (backupLoop cfg env)
    (fun st a => rfl) ?_ ts st be
  intro t rest st a
  constructor
  · intro e he
    obtain ⟨st1, a1, h, hc, _⟩ := (backupLoop_step cfg env t rest st a).1 e he
    exact ⟨st1, a1, h, hc⟩
  · intro he
    obtain ⟨st1, a1, h, hc, _⟩ := (backupLoop_step cfg env t rest st a).2 he
    exact ⟨st1, a1, h, hc⟩

theorem copyLoop_calls (cfg : Config) (env : Env) (ts : List Target) (st : State)
    (ce : copyRevision) : ∃ st1 ce1 err n,
      copyLoop cfg env ts st ce = some (st1, ce1, err) ∧ n ≤ ts.length ∧
      st1.calls = st.calls ++ (ts.take n).map (fun t => mkCall cfg (copyCmd t)) ∧
      (ts ≠ [] → 0 < n) ∧ (err = none → n = ts.length) ∧
      (∀ e, err = some e → ∃ i c, st.calls.length ≤ i ∧ st1.calls[i]? = some c ∧
        (env.Executor i c).err = some e) := by
  refine loop_calls env (fun t => mkCall cfg (copyCmd t)) (copyLoop cfg env)
    (fun st a => rfl) ?_ ts st ce
  intro t rest st a
  constructor
  · intro e he
    obtain ⟨st1, a1, h, hc, _⟩ := (copyLoop_step cfg env t rest st a).1 e he
    exact ⟨st1, a1, h, hc⟩
  · intro he
    obtain ⟨st1, a1, h, hc, _⟩ := (copyLoop_step cfg env t rest st a).2 he
    exact ⟨st1, a1, h, hc⟩

theorem pruneLoop_calls (cfg : Config) (env : Env) (ts : List Target) (st : State) :
    ∃ st1 err n,
      pruneLoop cfg env ts st = some (st1, err) ∧ n ≤ ts.length ∧
      st1.calls = st.calls ++ (ts.take n).map (fun t => mkCall cfg (pruneCmd t)) ∧
      (ts ≠ [] → 0 < n) ∧ (err = none → n = ts.length) ∧
      (∀ e, err = some e → ∃ i c, st.calls.length ≤ i ∧ st1.calls[i]? = some c ∧
        (env.Executor i c).err = some e) := by
  obtain ⟨st1, _, err, n, h, hrest⟩ := loop_calls env (fun t => mkCall cfg (pruneCmd t))
    (fun ts st (_ : Unit) => (pruneLoop cfg env ts st).map
      (fun (r : State × Option String) => (r.1, (), r.2)))
    (by intro st a; simp [pruneLoop])
    (by
      intro t rest st a
      constructor
      · intro e he
        obtain ⟨st1, h, hc, _⟩ := (pruneLoop_step cfg env t rest st).1 e he
        exact ⟨st1, (), by simp [h], hc⟩
      · intro he
        obtain ⟨st1, h, hc, _⟩ := (pruneLoop_step cfg env t rest st).2 he
        exact ⟨st1, (), by simp [h], hc⟩) ts st ()
  refine ⟨st1, err, n, ?_, hrest⟩
  cases hp : pruneLoop cfg env ts st with
  | none => simp [hp] at h
  | some r =>
    obtain ⟨s, e⟩ := r
    simp only [hp, Option.map_some', Option.some.injEq, Prod.mk.injEq] at h
    rw [← h.1, ← h.2.2]

theorem checkLoop_calls (cfg : Config) (env : Env) (ts : List Target) (st : State) :
    ∃ st1 err n,
      checkLoop cfg env ts st = some (st1, err) ∧ n ≤ ts.length ∧
      st1.calls = st.calls ++ (ts.take n).map (fun t => mkCall cfg (checkCmd t)) ∧
      (ts ≠ [] → 0 < n) ∧ (err = none → n = ts.length) ∧
      (∀ e, err = some e → ∃ i c, st.calls.length ≤ i ∧ st1.calls[i]? = some c ∧
        (env.Executor i c).err = some e) := by
  obtain ⟨st1, _, err, n, h, hrest⟩ := loop_calls env (fun t => mkCall cfg (checkCmd t))
    (fun ts st (_ : Unit) => (checkLoop cfg env ts st).map
      (fun (r : State × Option String) => (r.1, (), r.2)))
    (by intro st a; simp [checkLoop])
    (by
      intro t rest st a
      constructor
      · intro e he
        obtain ⟨st1, h, hc, _⟩ := (checkLoop_step cfg env t rest st).1 e he
        exact ⟨st1, (), by simp [h], hc⟩
      · intro he
        obtain ⟨st1, h, hc, _⟩ := (checkLoop_step cfg env t rest st).2 he
        exact ⟨st1, (), by simp [h], hc⟩) ts st ()
  refine ⟨st1, err, n, ?_, hrest⟩
  cases hp : checkLoop cfg env ts st with
  | none => simp [hp] at h
  | some r =>
    obtain ⟨s, e⟩ := r
    simp only [hp, Option.map_some', Option.some.injEq, Prod.mk.injEq] at h
    rw [← h.1, ← h.2.2]

/-- The invocations of the backup phase: those of the backup loop followed,
when every backup target succeeded, by those of the copy loop. -/
theorem performDuplicacyBackup_calls (cfg : Config) (env : Env) (st : State) :
    ∃ st1 err nb nc, performDuplicacyBackup cfg env st = some (st1, err) ∧
      nb ≤ cfg.backupInfo.length ∧ nc ≤ cfg.copyInfo.length ∧
      st1.calls = st.calls ++
        (cfg.backupInfo.take nb).map (fun t => mkCall cfg (backupCmd t).1) ++
        (cfg.copyInfo.take nc).map (fun t => mkCall cfg (copyCmd t)) ∧
      (cfg.backupInfo ≠ [] → 0 < nb) ∧
      (cfg.backupInfo = [] → cfg.copyInfo ≠ [] → 0 < nc) ∧
      (err = none → nb = cfg.backupInfo.length ∧ nc = cfg.copyInfo.length) ∧
      (∀ e, err = some e → ∃ i c, st.calls.length ≤ i ∧ st1.calls[i]? = some c ∧
        (env.Executor i c).err = some e) := by
  obtain ⟨st1, be1, err, nb, h, hnb, hc, hpos, hnone, herr⟩ :=
    backupLoop_calls cfg env cfg.backupInfo st {}
  cases err with
  | some e =>
    refine ⟨st1, some e, nb, 0, by simp [performDuplicacyBackup, h], hnb, by simp,
      by simpa using hc, hpos, ?_, by simp, herr⟩
    intro hb
    rw [hb] at h
    simp [backupLoop] at h
  | none =>
    by_cases hcopy : cfg.copyInfo.length ≠ 0
    · obtain ⟨st2, ce2, err2, nc, h2, hnc, hc2, hpos2, hnone2, herr2⟩ :=
        copyLoop_calls cfg env cfg.copyInfo st1 {}
      refine ⟨st2, err2, nb, nc, by simp [performDuplicacyBackup, h, hcopy, h2], hnb, hnc,
        by rw [hc2, hc], hpos, fun _ h0 => hpos2 h0, fun h0 => ⟨hnone rfl, hnone2 h0⟩, ?_⟩
      intro e he
      obtain ⟨i, c, hi, hci, hex⟩ := herr2 e he
      refine ⟨i, c, ?_, hci, hex⟩
      have : st.calls.length ≤ st1.calls.length := by simp [hc]
      omega
    · simp only [ne_eq, List.length_eq_zero, not_not] at hcopy
      refine ⟨st1, none, nb, 0, by simp [performDuplicacyBackup, h, hcopy], hnb, by simp,
        by simpa using hc, hpos, fun _ h0 => absurd hcopy h0, ?_, by simp⟩
      intro _
      exact ⟨hnone rfl, by simp [hcopy]⟩

/-! ## Argument vectors -/

theorem backupCmd_spec (c : Target) : (backupCmd c).1 = backupArgsSpec c := by
  unfold backupCmd backupArgsSpec
  cases h : c.lookup "vssTimeout" with
  | none =>
    have hget : Target.get c "vssTimeout" = "" := by simp [Target.get, h]
    by_cases hv : Target.get c "vss" = "true" <;> simp [hv, hget]
  | some t =>
    have hget : Target.get c "vssTimeout" = t := by simp [Target.get, h]
    by_cases hv : Target.get c "vss" = "true" <;> by_cases ht : t = "" <;> simp [hv, hget, ht]

/-- C5: every invocation the backup loop makes for a target `c` passes exactly
the argument vector `backup -storage c[name] -threads c[threads] -stats`,
followed by `-vss` iff `c[vss]` is the string `true`, followed by
`-vss-timeout c[vssTimeout]` iff moreover `vssTimeout` is present and
non-empty.  The phase returns, and the `i`-th of the `n` backup targets it
reaches is invoked with the vector of the `i`-th configured target. -/
theorem backup_argument_vector (cfg : Config) (env : Env) (st : State) :
    (∀ c : Target, (backupCmd c).1 = backupArgsSpec c) ∧
    ∃ st1 err n, performDuplicacyBackup cfg env st = some (st1, err) ∧
      n ≤ cfg.backupInfo.length ∧ (cfg.backupInfo ≠ [] → 0 < n) ∧
      (err = none → n = cfg.backupInfo.length) ∧
      ∀ i c, i < n → cfg.backupInfo[i]? = some c →
        st1.calls[st.calls.length + i]? =
          some { path := cfg.duplicacyPath, args := backupArgsSpec c, dir := cfg.repoDir } := by
  refine ⟨backupCmd_spec, ?_⟩
  obtain ⟨st1, err, nb, nc, h, hnb, _, hc, hpos, _, hnone, _⟩ :=
    performDuplicacyBackup_calls cfg env st
  refine ⟨st1, err, nb, h, hnb, hpos, fun h0 => (hnone h0).1, ?_⟩
  intro i c hi hci
  rw [hc, List.append_assoc, List.getElem?_append_right (by omega)]
  have hlen : i < ((cfg.backupInfo.take nb).map (fun t => mkCall cfg (backupCmd t).1)).length := by
    simp; omega
  rw [show st.calls.length + i - st.calls.length = i by omega,
    List.getElem?_append_left hlen]
  simp [List.getElem?_take, hi, hci, mkCall, backupCmd_spec]

/-! ## The job driver -/

theorem backupCmd_head (t : Target) : (backupCmd t).1.head? = some "backup" := by
  unfold backupCmd
  split
  · split <;> rfl
  · rfl

theorem checkCmd_head (t : Target) : (checkCmd t).head? = some "check" := by
  unfold checkCmd
  split <;> rfl

theorem backupPhase_tagged (cfg : Config) (env : Env) (st : State) :
    ∃ st1 err new, performDuplicacyBackup cfg env st = some (st1, err) ∧
      st1.calls = st.calls ++ new ∧
      ∀ c ∈ new, c.args.head? = some "backup" ∨ c.args.head? = some "copy" := by
  obtain ⟨st1, err, nb, nc, h, _, _, hc, _⟩ := performDuplicacyBackup_calls cfg env st
  refine ⟨st1, err, _, h, by rw [hc, List.append_assoc], ?_⟩
  intro c hc
  rw [List.mem_append] at hc
  rcases hc with hc | hc
  · obtain ⟨t, _, rfl⟩ := List.mem_map.1 hc
    exact Or.inl (backupCmd_head t)
  · obtain ⟨t, _, rfl⟩ := List.mem_map.1 hc
    exact Or.inr rfl

theorem prunePhase_tagged (cfg : Config) (env : Env) (st : State) :
    ∃ st1 err new, performDuplicacyPrune cfg env st = some (st1, err) ∧
      st1.calls = st.calls ++ new ∧ ∀ c ∈ new, c.args.head? = some "prune" := by
  obtain ⟨st1, err, n, h, _, hc, _⟩ := pruneLoop_calls cfg env cfg.pruneInfo st
  refine ⟨st1, err, _, h, hc, ?_⟩
  intro c hc
  obtain ⟨t, _, rfl⟩ := List.mem_map.1 hc
  rfl

theorem checkPhase_tagged (cfg : Config) (env : Env) (st : State) :
    ∃ st1 err new, performDuplicacyCheck cfg env st = some (st1, err) ∧
      st1.calls = st.calls ++ new ∧ ∀ c ∈ new, c.args.head? = some "check" := by
  obtain ⟨st1, err, n, h, _, hc, _⟩ := checkLoop_calls cfg env cfg.checkInfo st
  refine ⟨st1, err, _, h, hc, ?_⟩
  intro c hc
  obtain ⟨t, _, rfl⟩ := List.mem_map.1 hc
  exact checkCmd_head t

/-- C4: with log rotation and log-file creation succeeding, `performBackup`
runs the phases in the order backup, prune, check: each phase is started only
if its flag is set and no earlier phase returned an error, from the state the
previous one left; a phase that is not started invokes the executor not at
all; the error returned is the first error of a phase, and it is `nil` exactly
when every phase that ran returned `nil`.  The executor invocations of the
job are those of the backup phase (`backup`, `copy`), then those of the prune
phase, then those of the check phase. -/
theorem performBackup_phases (cfg : Config) (env : Env) (st : State)
    (hrot : env.rotateLogFiles = none)
    (hcreate : env.osCreate cfg.globalLogDir (cfg.cmdConfig ++ ".log") = none) :
    ∃ sB eB sP eP sC eC fin err B P C,
      (if cfg.cmdBackup = true then performDuplicacyBackup cfg env (jobStart env st)
        else some (jobStart env st, none)) = some (sB, eB) ∧
      (if eB = none ∧ cfg.cmdPrune = true then performDuplicacyPrune cfg env sB
        else some (sB, none)) = some (sP, eP) ∧
      (if eB = none ∧ eP = none ∧ cfg.cmdCheck = true then performDuplicacyCheck cfg env sP
        else some (sP, none)) = some (sC, eC) ∧
      performBackup cfg env st = some (fin, err) ∧
      fin.calls = sC.calls ∧
      (∀ e, eB = some e → err = some e ∧ fin = sB) ∧
      (∀ e, eP = some e → err = some e ∧ fin = sP) ∧
      (∀ e, eC = some e → err = some e ∧ fin = sC) ∧
      (err = none ↔ eB = none ∧ eP = none ∧ eC = none) ∧
      sB.calls = st.calls ++ B ∧ sP.calls = sB.calls ++ P ∧ sC.calls = sP.calls ++ C ∧
      (∀ c ∈ B, c.args.head? = some "backup" ∨ c.args.head? = some "copy") ∧
      (∀ c ∈ P, c.args.head? = some "prune") ∧
      (∀ c ∈ C, c.args.head? = some "check") ∧
      (cfg.cmdBackup = false → B = []) ∧
      (cfg.cmdPrune = false ∨ eB ≠ none → P = []) ∧
      (cfg.cmdCheck = false ∨ eB ≠ none ∨ eP ≠ none → C = []) := by
  have hjs : (jobStart env st).calls = st.calls := rfl
  obtain ⟨sB, eB, B, hB, hBc, hBt, hBf⟩ : ∃ sB eB B,
      (if cfg.cmdBackup = true then performDuplicacyBackup cfg env (jobStart env st)
        else some (jobStart env st, none)) = some (sB, eB) ∧
      sB.calls = st.calls ++ B ∧
      (∀ c ∈ B, c.args.head? = some "backup" ∨ c.args.head? = some "copy") ∧
      (cfg.cmdBackup = false → B = []) := by
    by_cases hb : cfg.cmdBackup = true
    · obtain ⟨s, e, new, h, hc, ht⟩ := backupPhase_tagged cfg env (jobStart env st)
      exact ⟨s, e, new, by simp [hb, h], by rw [hc, hjs], ht, by simp [hb]⟩
    · exact ⟨jobStart env st, none, [], by simp [hb], by simp [hjs], by simp, by simp⟩
  obtain ⟨sP, eP, P, hP, hPc, hPt, hPf⟩ : ∃ sP eP P,
      (if eB = none ∧ cfg.cmdPrune = true then performDuplicacyPrune cfg env sB
        else some (sB, none)) = some (sP, eP) ∧
      sP.calls = sB.calls ++ P ∧ (∀ c ∈ P, c.args.head? = some "prune") ∧
      (cfg.cmdPrune = false ∨ eB ≠ none → P = []) ∧
      (eB ≠ none → sP = sB ∧ eP = none) := by
    by_cases hp : eB = none ∧ cfg.cmdPrune = true
    · obtain ⟨s, e, new, h, hc, ht⟩ := prunePhase_tagged cfg env sB
      refine ⟨s, e, new, by simp [hp, h], hc, ht, ?_, ?_⟩
      · intro h0; rcases h0 with h0 | h0
        · simp [hp.2] at h0
        · exact absurd hp.1 h0
      · intro h0; exact absurd hp.1 h0
    · exact ⟨sB, none, [], by simp [hp], by simp, by simp, by simp, by simp⟩
  obtain ⟨hPf, hPe⟩ := hPf
  obtain ⟨sC, eC, C, hC, hCc, hCt, hCf, hCe⟩ : ∃ sC eC C,
      (if eB = none ∧ eP = none ∧ cfg.cmdCheck = true then performDuplicacyCheck cfg env sP
        else some (sP, none)) = some (sC, eC) ∧
      sC.calls = sP.calls ++ C ∧ (∀ c ∈ C, c.args.head? = some "check") ∧
      (cfg.cmdCheck = false ∨ eB ≠ none ∨ eP ≠ none → C = []) ∧
      (eB ≠ none ∨ eP ≠ none → sC = sP ∧ eC = none) := by
    by_cases hp : eB = none ∧ eP = none ∧ cfg.cmdCheck = true
    · obtain ⟨s, e, new, h, hc, ht⟩ := checkPhase_tagged cfg env sP
      refine ⟨s, e, new, by simp [hp, h], hc, ht, ?_, ?_⟩
      · intro h0; rcases h0 with h0 | h0 | h0
        · simp [hp.2.2] at h0
        · exact absurd hp.1 h0
        · exact absurd hp.2.1 h0
      · intro h0; rcases h0 with h0 | h0
        · exact absurd hp.1 h0
        · exact absurd hp.2.1 h0
    · exact ⟨sP, none, [], by simp [hp], by simp, by simp, by simp, by simp⟩
  cases heB : eB with
  | some e =>
    obtain ⟨h1, h2⟩ := hPe (by simp [heB])
    obtain ⟨h3, h4⟩ := hCe (Or.inl (by simp [heB]))
    subst heB
    refine ⟨sB, some e, sP, eP, sC, eC, sB, some e, B, P, C, hB, hP, hC, ?_, ?_, ?_, ?_, ?_, ?_,
      hBc, hPc, hCc, hBt, hPt, hCt, hBf, hPf, hCf⟩
    · simp only [performBackup, hrot, hcreate]
      rw [hB]
    · rw [h3, h1]
    · intro e1 h; injection h with h; subst h; exact ⟨rfl, rfl⟩
    · intro e1 h; rw [h2] at h; simp at h
    · intro e1 h; rw [h4] at h; simp at h
    · simp
  | none =>
    subst heB
    simp only [true_and] at hP hC
    cases heP : eP with
    | some e =>
      obtain ⟨h3, h4⟩ := hCe (Or.inr (by simp [heP]))
      subst heP
      refine ⟨sB, none, sP, some e, sC, eC, sP, some e, B, P, C, hB, by simpa using hP,
        by simpa using hC, ?_, ?_, ?_, ?_, ?_, ?_, hBc, hPc, hCc, hBt, hPt, hCt, hBf, hPf, hCf⟩
      · simp only [performBackup, hrot, hcreate]
        rw [hB]
        simp only []
        rw [hP]
      · rw [h3]
      · intro e1 h; simp at h
      · intro e1 h; injection h with h; subst h; exact ⟨rfl, rfl⟩
      · intro e1 h; rw [h4] at h; simp at h
      · simp
    | none =>
      subst heP
      simp only [true_and] at hC
      cases heC : eC with
      | some e =>
        subst heC
        refine ⟨sB, none, sP, none, sC, some e, sC, some e, B, P, C, hB, by simpa using hP,
          by simpa using hC, ?_, rfl, ?_, ?_, ?_, ?_, hBc, hPc, hCc, hBt, hPt, hCt, hBf, hPf,
          hCf⟩
        · simp only [performBackup, hrot, hcreate]
          rw [hB]
          simp only []
          rw [hP]
          simp only []
          rw [hC]
        · intro e1 h; simp at h
        · intro e1 h; simp at h
        · intro e1 h; injection h with h; subst h; exact ⟨rfl, rfl⟩
        · simp
      | none =>
        subst heC
        refine ⟨sB, none, sP, none, sC, none,
          ((sC.tick).println separator).logMessage true ("Operations completed in " ++
            env.getTimeDiffString (env.now (st.logMessage false "Rotating log files").clock)
              (env.now sC.clock)),
          none, B, P, C, hB, by simpa using hP,
          by simpa using hC, ?_, ?_, ?_, ?_, ?_, ?_, hBc, hPc, hCc, hBt, hPt, hCt, hBf, hPf,
          hCf⟩
        · simp only [performBackup, hrot, hcreate]
          rw [hB]
          simp only []
          rw [hP]
          simp only []
          rw [hC]
        · rfl
        · intro e1 h; simp at h
        · intro e1 h; simp at h
        · intro e1 h; simp at h
        · simp

/-! ## The backup phase on unmatched output -/

theorem backupLogger_unmatched (line : String) (h : unmatched line) (be : backupRevision) :
    backupLogger line be = some ([LogEvent.println line], be) := by
  obtain ⟨h1, h2, h3⟩ := h
  simp [backupLogger, h1, h2, h3]

theorem feed_unmatched : ∀ (lines : List String) (st : State) (be : backupRevision),
    (∀ l ∈ lines, unmatched l) →
    feed backupLogger lines st be =
      some ({ st with log := st.log ++ lines.map LogEvent.println }, be) := by
  intro lines
  induction lines with
  | nil => intro st be _; simp [feed]
  | cons l ls ih =>
    intro st be h
    simp only [feed, backupLogger_unmatched l (h l (List.mem_cons_self _ _))]
    rw [ih _ _ (fun x hx => h x (List.mem_cons_of_mem _ hx))]
    simp

/-- C10: one backup target, no copy target, an empty backup table and an
executor that succeeds after emitting only lines that match no pattern:
`performDuplicacyBackup` returns `nil`; the log receives the separator and the
announcement, then every emitted line once and unchanged, in order, then the
duration message; the backup table ends with exactly one entry, whose storage
is the name of the target, whose nine statistics fields are empty and whose
duration is the time measured from before the invocation to after it. -/
theorem performDuplicacyBackup_single (cfg : Config) (env : Env) (st : State) (t : Target)
    (hcfg : cfg.backupInfo = [t]) (hcopy : cfg.copyInfo = []) (htable : st.backupTable = [])
    (herr : (env.Executor st.calls.length (mkCall cfg (backupCmd t).1)).err = none)
    (hlines : ∀ l ∈ (env.Executor st.calls.length (mkCall cfg (backupCmd t).1)).lines,
      unmatched l) :
    performDuplicacyBackup cfg env st =
      some ({ calls := st.calls ++ [mkCall cfg (backupCmd t).1],
              log := st.log ++
                [LogEvent.println separator,
                  LogEvent.logMessage true ("Backing up to storage " ++ Target.get t "name" ++
                    (backupCmd t).2 ++ " with " ++ Target.get t "threads" ++ " threads")] ++
                (if cfg.debugFlag = true then
                  [LogEvent.logMessage true
                    ("Executing: " ++ cfg.duplicacyPath ++ sprintSlice (backupCmd t).1)]
                else []) ++
                (env.Executor st.calls.length (mkCall cfg (backupCmd t).1)).lines.map
                  LogEvent.println ++
                [LogEvent.logMessage true ("  Duration: " ++
                  env.getTimeDiffString (env.now st.clock) (env.now (st.clock + 1)))],
              backupTable :=
                [{ storage := Target.get t "name",
                   filesTotalCount := "", filesTotalSize := "", filesNewCount := "",
                   filesNewSize := "", chunkTotalCount := "", chunkTotalSize := "",
                   chunkNewCount := "", chunkNewSize := "", chunkNewUploaded := "",
                   duration := env.getTimeDiffString (env.now st.clock)
                     (env.now (st.clock + 1)) }],
              copyTable := st.copyTable,
              clock := st.clock + 2 }, none) := by
  simp only [mkCall] at herr hlines
  by_cases hd : cfg.debugFlag = true
  · simp [performDuplicacyBackup, hcfg, hcopy, backupLoop, Executor, State.tick, State.println,
      State.logMessage, hd, herr, feed_unmatched _ _ _ hlines, htable, mkCall]
  · simp [performDuplicacyBackup, hcfg, hcopy, backupLoop, Executor, State.tick, State.println,
      State.logMessage, hd, herr, feed_unmatched _ _ _ hlines, htable, mkCall]

/-- C10 on the scenario of `TestRunDuplicacyBackup`: the target `b2` and the
single output line `Processing backup file: "taltos.log"`. -/
theorem performDuplicacyBackup_single_witness :
    performDuplicacyBackup testConfig helperProcess {} =
      some ({ calls := [mkCall testConfig
                ["backup", "-storage", "b2", "-threads", "5", "-stats"]],
              log := [LogEvent.println separator,
                LogEvent.logMessage true "Backing up to storage b2 with 5 threads",
                LogEvent.println "Processing backup file: \"taltos.log\"",
                LogEvent.logMessage true "  Duration: 7"],
              backupTable := [{ storage := "b2", duration := "7" }],
              copyTable := [],
              clock := 2 }, none) :=
  performDuplicacyBackup_single testConfig helperProcess {}
    [("name", "b2"), ("threads", "5"), ("vss", "false")] rfl rfl rfl rfl (by decide)

/-! ## Concrete runs -/

/-- C3 on two targets, the first printing statistics and the second printing
nothing: the variable `backupEntry` is declared once, before the loop, so the
entry appended for the second target repeats the statistics of the first. -/
theorem backupEntry_carried_over :
    (performDuplicacyBackup twoTargets firstPrintsStats {}).map
      (fun r => (r.2, r.1.backupTable)) =
    some (none,
      [{ storage := "b2", filesTotalCount := "1", filesTotalSize := "2", filesNewCount := "3",
         filesNewSize := "4", chunkTotalCount := "5", chunkTotalSize := "6",
         chunkNewCount := "7", chunkNewSize := "8", chunkNewUploaded := "9", duration := "1" },
       { storage := "s3", filesTotalCount := "1", filesTotalSize := "2", filesNewCount := "3",
         filesNewSize := "4", chunkTotalCount := "5", chunkTotalSize := "6",
         chunkNewCount := "7", chunkNewSize := "8", chunkNewUploaded := "9",
         duration := "1" }]) := by
  decide

/-- C6 on a `keep` value with two consecutive spaces and on an absent `keep`
value: `strings.Split(keep, " ")` yields an empty piece, which is passed to the
executor as an empty argument. -/
theorem prune_empty_argument :
    (performDuplicacyPrune pruneDoubleSpace allSucceed {}).map
      (fun r => (r.2, r.1.calls.map (fun c => c.args))) =
    some (none,
      [["prune", "-all", "-storage", "b2", "-keep", "0:365", "", "-keep", "7:30"],
       ["prune", "-all", "-storage", "s3", ""]]) := by
  decide

/-- C9 fails on a backup target without `name` and `threads`: the phase
returns no error and the executor is invoked once, with empty strings in the
argument vector. -/
theorem missing_key_counterexample :
    (performDuplicacyBackup missingKeys allSucceed {}).map
      (fun r => (r.2, r.1.calls.map (fun c => c.args))) =
    some (none, [["backup", "-storage", "", "-threads", "", "-stats"]]) := by
  decide

/-- C9 as the code has it: the phases do not look for missing keys.  An absent
key reads as the empty string, the executor is invoked for the first target of
each phase whatever keys its map has, with the argument vector built from
these readings, and an error a phase returns is the error of one of its
executor invocations. -/
theorem missing_key_not_detected (cfg : Config) (env : Env) (st : State) (c : Target)
    (rest : List Target) :
    (∀ key, c.lookup key = none → Target.get c key = "") ∧
    (c.lookup "name" = none → c.lookup "threads" = none →
      (backupCmd c).1.take 6 = ["backup", "-storage", "", "-threads", "", "-stats"]) ∧
    (∃ st1 err, performDuplicacyBackup { cfg with backupInfo := c :: rest } env st =
        some (st1, err) ∧
      st1.calls[st.calls.length]? = some (mkCall cfg (backupCmd c).1) ∧
      ∀ e, err = some e → ∃ i call, st.calls.length ≤ i ∧ st1.calls[i]? = some call ∧
        (env.Executor i call).err = some e) ∧
    (∃ st1 err, performDuplicacyBackup { cfg with backupInfo := [], copyInfo := c :: rest }
        env st = some (st1, err) ∧
      st1.calls[st.calls.length]? = some (mkCall cfg (copyCmd c)) ∧
      ∀ e, err = some e → ∃ i call, st.calls.length ≤ i ∧ st1.calls[i]? = some call ∧
        (env.Executor i call).err = some e) ∧
    (∃ st1 err, performDuplicacyPrune { cfg with pruneInfo := c :: rest } env st =
        some (st1, err) ∧
      st1.calls[st.calls.length]? = some (mkCall cfg (pruneCmd c)) ∧
      ∀ e, err = some e → ∃ i call, st.calls.length ≤ i ∧ st1.calls[i]? = some call ∧
        (env.Executor i call).err = some e) ∧
    (∃ st1 err, performDuplicacyCheck { cfg with checkInfo := c :: rest } env st =
        some (st1, err) ∧
      st1.calls[st.calls.length]? = some (mkCall cfg (checkCmd c)) ∧
      ∀ e, err = some e → ∃ i call, st.calls.length ≤ i ∧ st1.calls[i]? = some call ∧
        (env.Executor i call).err = some e) := by
  refine ⟨?_, ?_, ?_, ?_, ?_, ?_⟩
  · intro key h
    simp [Target.get, h]
  · intro h1 h2
    unfold backupCmd
    simp only [Target.get, h1, h2]
    split
    · split <;> rfl
    · rfl
  · obtain ⟨st1, err, nb, nc, h, _, _, hc, hpos, _, _, herr⟩ :=
      performDuplicacyBackup_calls { cfg with backupInfo := c :: rest } env st
    refine ⟨st1, err, h, ?_, herr⟩
    have hnb := hpos (by simp)
    rw [hc, List.append_assoc, List.getElem?_append_right (le_refl _)]
    obtain ⟨m, rfl⟩ : ∃ m, nb = m + 1 := ⟨nb - 1, by omega⟩
    simp [mkCall]
  · obtain ⟨st1, err, nb, nc, h, hnb, _, hc, _, hpos, _, herr⟩ :=
      performDuplicacyBackup_calls { cfg with backupInfo := [], copyInfo := c :: rest } env st
    refine ⟨st1, err, h, ?_, herr⟩
    have hnc := hpos rfl (by simp)
    simp only [List.length_nil, Nat.le_zero_eq] at hnb
    subst hnb
    rw [hc, List.getElem?_append_right (by simp)]
    obtain ⟨m, rfl⟩ : ∃ m, nc = m + 1 := ⟨nc - 1, by omega⟩
    simp [mkCall]
  · obtain ⟨st1, err, n, h, _, hc, hpos, _, herr⟩ :=
      pruneLoop_calls { cfg with pruneInfo := c :: rest } env (c :: rest) st
    refine ⟨st1, err, h, ?_, herr⟩
    have hn := hpos (by simp)
    rw [hc, List.getElem?_append_right (le_refl _)]
    obtain ⟨m, rfl⟩ : ∃ m, n = m + 1 := ⟨n - 1, by omega⟩
    simp [mkCall]
  · obtain ⟨st1, err, n, h, _, hc, hpos, _, herr⟩ :=
      checkLoop_calls { cfg with checkInfo := c :: rest } env (c :: rest) st
    refine ⟨st1, err, h, ?_, herr⟩
    have hn := hpos (by simp)
    rw [hc, List.getElem?_append_right (le_refl _)]
    obtain ⟨m, rfl⟩ : ∃ m, n = m + 1 := ⟨n - 1, by omega⟩
    simp [mkCall]

/-- C4 on a job that requests the three phases and whose second backup target
fails: the statement of the theorem at this job. -/
theorem performBackup_phases_witness :
    ∃ sB eB sP eP sC eC fin err B P C,
      (if fullJob.cmdBackup = true then
          performDuplicacyBackup fullJob secondFails (jobStart secondFails {})
        else some (jobStart secondFails {}, none)) = some (sB, eB) ∧
      (if eB = none ∧ fullJob.cmdPrune = true then performDuplicacyPrune fullJob secondFails sB
        else some (sB, none)) = some (sP, eP) ∧
      (if eB = none ∧ eP = none ∧ fullJob.cmdCheck = true then
          performDuplicacyCheck fullJob secondFails sP
        else some (sP, none)) = some (sC, eC) ∧
      performBackup fullJob secondFails {} = some (fin, err) ∧
      fin.calls = sC.calls ∧
      (∀ e, eB = some e → err = some e ∧ fin = sB) ∧
      (∀ e, eP = some e → err = some e ∧ fin = sP) ∧
      (∀ e, eC = some e → err = some e ∧ fin = sC) ∧
      (err = none ↔ eB = none ∧ eP = none ∧ eC = none) ∧
      sB.calls = ({} : State).calls ++ B ∧ sP.calls = sB.calls ++ P ∧
      sC.calls = sP.calls ++ C ∧
      (∀ c ∈ B, c.args.head? = some "backup" ∨ c.args.head? = some "copy") ∧
      (∀ c ∈ P, c.args.head? = some "prune") ∧
      (∀ c ∈ C, c.args.head? = some "check") ∧
      (fullJob.cmdBackup = false → B = []) ∧
      (fullJob.cmdPrune = false ∨ eB ≠ none → P = []) ∧
      (fullJob.cmdCheck = false ∨ eB ≠ none ∨ eP ≠ none → C = []) :=
  performBackup_phases fullJob secondFails {} rfl rfl

end DuplicacyUtil
